import Mathlib

/-!
Verification of the ristretto255 core: the constant-time field primitives,
the fixed exponentiation chain, the square-root-ratio solver, the Elligator
map-to-point, hash-to-group, and element equality.

The field-arithmetic kernel (radix-51 limbs) and the extended-coordinate
group law are external collaborators of this core; field elements are
embedded as residues in `ZMod (2 ^ 255 - 19)`, and the external kernel's
operations are modelled from the spec where noted.
-/

/-- Characteristic of the field: the prime 2^255 - 19. -/
def p : ℕ := 2 ^ 255 - 19

/-- Field elements, as the residues they denote (spec §3: the prime field
with 2^255 - 19 elements; the radix-51 limb representation of the external
kernel is abstracted to the residue it denotes). -/
abbrev F : Type := ZMod p

/-- Binary modular exponentiation on naturals, structurally recursive on a
fuel bound so that concrete instances evaluate by kernel reduction. -/
def powModAux : ℕ → ℕ → ℕ → ℕ → ℕ
  | 0, _, _, m => 1 % m
  | fuel + 1, b, e, m =>
    if e = 0 then 1 % m
    else
      let r := powModAux fuel (b * b % m) (e / 2) m
      if e % 2 = 1 then r * b % m else r

/-- Constant `sqrtM1` of the source (also `SQRT_M1` of fe.go): the fixed
square root of -1 in the field. -/
def sqrtM1 : F :=
  ((19681161376707505956807079304988542015446066515923890162744021073123829784752 : ℕ) : F)

/-- Modelled from the spec: the external group-law kernel's curve parameter
`d` of edwards25519 (`group.D`, §6), the value -121665/121666 in the field. -/
def dConst : F :=
  ((37095705934669439343138083508754565189542113879843219016388785533085940283555 : ℕ) : F)

/-- Constant `oneMinusDSQ` of the source: 1 - d². -/
def oneMinusDSQ : F :=
  ((1159843021668779879193775521855586647937357759715417654439879720876111806838 : ℕ) : F)

/-- Constant `dMinusOneSQ` of the source: (d - 1)². -/
def dMinusOneSQ : F :=
  ((40440834346308536858101042469323190826248399146238708352240133220865137265952 : ℕ) : F)

/-- Constant `sqrtADMinusOne` of the source: √(a·d - 1) with a = -1. -/
def sqrtADMinusOne : F :=
  ((25063068953384623474111414158702152701244531502492656460079210482610430750235 : ℕ) : F)

/-- Modelled from the spec: the external kernel's canonical fixed-width byte
serialization of a field element (`radix51.FeToBytes`, §4.1/§6): the 32
little-endian base-256 digits of the canonical representative. -/
def feToBytes (x : F) : List ℕ :=
  (List.range 32).map fun i => x.val / 256 ^ i % 256

/-- Modelled from the spec: the external kernel's fixed-width little-endian
deserialization of a field element (`radix51.FeFromBytes`, §6: "32-byte
little-endian field-element encodings"). -/
def FeFromBytes (b : List ℕ) : F :=
  ((b.foldr (fun byte acc => byte + 256 * acc) 0 : ℕ) : F)

/-- Function `FeEqual` of fe.go: serializes both operands to canonical bytes
and compares the byte sequences (the constant-time byte comparison is
abstracted to the equality it decides), returning 1 on equality, 0 otherwise. -/
def FeEqual (a b : F) : ℕ :=
  if feToBytes a = feToBytes b then 1 else 0

/-- Function `FeSelect` of fe.go: branchless selection; for cond ∈ {0,1} the
limb-level masking denotes: v if cond == 1, u if cond == 0. -/
def FeSelect (v u : F) (cond : ℕ) : F :=
  if cond = 1 then v else u

/-- Function `FeIsNegative` of fe.go: the low bit of the least significant
byte of the canonical encoding. -/
def FeIsNegative (u : F) : ℕ :=
  (feToBytes u).headI &&& 1

/-- Function `FeAbs` of fe.go: `FeSelect(-u, u, FeIsNegative(u))`. -/
def FeAbs (u : F) : F :=
  FeSelect (-u) u (FeIsNegative u)

/-- Helper for the fixed exponentiation chain: `n` consecutive squarings,
the run `FeSquare(t, z); for i = 1; i < n; i++ { FeSquare(t, t) }`. -/
def feSquareTimes : ℕ → F → F
  | 0, x => x
  | n + 1, x => feSquareTimes n (x * x)

/-- Function `fePow22523` of fe.go: the fixed public addition chain computing
z^((p-5)/8), with consecutive-squaring runs of lengths
1, 2, 1, 5, 10, 20, 10, 50, 100, 50, 2 interleaved with multiplications by
accumulated partial powers, transcribed operation for operation. -/
def fePow22523 (z : F) : F :=
  let t0 := feSquareTimes 1 z
  let t1 := feSquareTimes 2 t0
  let t1 := z * t1
  let t0 := t0 * t1
  let t0 := feSquareTimes 1 t0
  let t0 := t1 * t0
  let t1 := feSquareTimes 5 t0
  let t0 := t1 * t0
  let t1 := feSquareTimes 10 t0
  let t1 := t1 * t0
  let t2 := feSquareTimes 20 t1
  let t1 := t2 * t1
  let t1 := feSquareTimes 10 t1
  let t0 := t1 * t0
  let t1 := feSquareTimes 50 t0
  let t1 := t1 * t0
  let t2 := feSquareTimes 100 t1
  let t1 := t2 * t1
  let t1 := feSquareTimes 50 t1
  let t0 := t1 * t0
  let t0 := feSquareTimes 2 t0
  t0 * z

/-- Function `FeSqrtRatio` of fe.go (called `feSqrtRatio` at its call site in
the ristretto255 package), transcribed operation for operation. -/
def feSqrtRatio (u v : F) : ℕ × F :=
  let v3 := (v * v) * v
  let v7 := (v3 * v3) * v
  let uv3 := u * v3
  let uv7 := u * v7
  let r0 := uv3 * fePow22523 uv7
  let check := (r0 * r0) * v
  let uneg := -u
  let correctSignSqrt := FeEqual check u
  let flippedSignSqrt := FeEqual check uneg
  let flippedSignSqrtI := FeEqual check (uneg * sqrtM1)
  let rPrime := r0 * sqrtM1
  let r1 := FeSelect rPrime r0 (flippedSignSqrt ||| flippedSignSqrtI)
  (correctSignSqrt ||| flippedSignSqrt, FeAbs r1)

/-- Modelled from the spec: the external group package's extended-coordinate
point type (`group.ExtendedGroupElement`, §3): four field-element
coordinates (X, Y, Z, T). -/
structure ExtendedGroupElement where
  X : F
  Y : F
  Z : F
  T : F

/-- Type `Element` of the source: an element of the ristretto255 group,
carrying one representative extended point. -/
structure Element where
  r : ExtendedGroupElement

/-- Method `Element.Equal` of the source: the bitwise OR of the constant-time
field equality tests X1·Y2 == Y1·X2 and Y1·Y2 == X1·X2. -/
def Element.Equal (e ee : Element) : ℕ :=
  let out := FeEqual (e.r.X * ee.r.Y) (e.r.Y * ee.r.X)
  out ||| FeEqual (e.r.Y * ee.r.Y) (e.r.X * ee.r.X)

/-- Modelled from the spec: the external group-law kernel's
extended-coordinate point addition (§6: "extended-coordinate point addition
with the standard extended-twisted-Edwards formulas", the add-2008-hwcd-3
formulas for a = -1). -/
def geAdd (q1 q2 : ExtendedGroupElement) : ExtendedGroupElement :=
  let A := (q1.Y - q1.X) * (q2.Y - q2.X)
  let B := (q1.Y + q1.X) * (q2.Y + q2.X)
  let C := ((2 : F) * dConst * q1.T) * q2.T
  let D := (2 : F) * q1.Z * q2.Z
  let E := B - A
  let Fd := D - C
  let G := D + C
  let H := B + A
  ⟨E * Fd, G * H, Fd * G, E * H⟩

/-- Function `mapToPoint` of the source, transcribed operation for
operation. -/
def mapToPoint (t : F) : ExtendedGroupElement :=
  let r := (t * t) * sqrtM1
  let one : F := 1
  let minusOne : F := -one
  let u := (r + one) * oneMinusDSQ
  let rPlusD := r + dConst
  let v := (minusOne - r * dConst) * rPlusD
  let sr := feSqrtRatio u v
  let wasSquare := sr.1
  let s0 := sr.2
  let sPrime := -(FeAbs (s0 * t))
  let s := FeSelect s0 sPrime wasSquare
  let c := FeSelect minusOne r wasSquare
  let N := (((r - one) * c) * dMinusOneSQ) - v
  let sSquare := s * s
  let w0 := (s * v) + (s * v)
  let w1 := N * sqrtADMinusOne
  let w2 := one - sSquare
  let w3 := one + sSquare
  ⟨w0 * w3, w2 * w1, w1 * w3, w0 * w2⟩

/-- Method `Element.FromUniformBytes` of the source, with the receiver made
explicit: the Go method mutates its receiver and panics on wrong-length
input before touching it, embedded here as returning the receiver unchanged
together with `false` in that case, and the new element with `true`
otherwise. -/
def Element.FromUniformBytes (e : Element) (b : List ℕ) : Element × Bool :=
  if b.length = 64 then
    let f1 := FeFromBytes (b.take 32)
    let p1 := mapToPoint f1
    let f2 := FeFromBytes (b.drop 32)
    let p2 := mapToPoint f2
    (⟨geAdd p1 p2⟩, true)
  else (e, false)

/-- Predicate for Group Elements produced by the hash-to-group construction:
some 64-byte input maps to this element. -/
def isFromUniform (e : Element) : Prop :=
  ∃ (b : List ℕ) (e0 : Element), b.length = 64 ∧ Element.FromUniformBytes e0 b = (e, true)

/-- Affine x-coordinate denoted by an extended point (spec §3: the point
(X/Z, Y/Z)). -/
def affX (P : ExtendedGroupElement) : F := P.X * P.Z⁻¹

/-- Affine y-coordinate denoted by an extended point (spec §3). -/
def affY (P : ExtendedGroupElement) : F := P.Y * P.Z⁻¹

/-- Modelled from the spec: a valid representative point of the underlying
curve (§1, §6): Z is nonzero and the denoted affine point satisfies the
twisted Edwards equation -x² + y² = 1 + d·x²·y² of edwards25519 (a = -1). -/
def onCurve (P : ExtendedGroupElement) : Prop :=
  P.Z ≠ 0 ∧ -(affX P) ^ 2 + (affY P) ^ 2 = 1 + dConst * (affX P) ^ 2 * (affY P) ^ 2

/-- Modelled from the spec: the complete affine twisted Edwards addition law
of the external group-law kernel (§6), for a = -1. -/
def affineAdd (P Q : F × F) : F × F :=
  ((P.1 * Q.2 + P.2 * Q.1) * (1 + dConst * P.1 * Q.1 * P.2 * Q.2)⁻¹,
   (P.2 * Q.2 + P.1 * Q.1) * (1 - dConst * P.1 * Q.1 * P.2 * Q.2)⁻¹)

/-- Modelled from the spec: the cofactor-4 subgroup (§3: "four Extended Group
Points related by the curve's cofactor-4 subgroup action"): the four
4-torsion points (0, ±1), (±i, 0) of the curve. -/
def torsion4 : List (F × F) :=
  [(0, 1), (0, -1), (sqrtM1, 0), (-sqrtM1, 0)]

/-- Modelled from the spec: two extended points denote the same ristretto
equivalence class when their affine points differ by the action of a
4-torsion point (§3). -/
def sameClass (P Q : ExtendedGroupElement) : Prop :=
  ∃ t ∈ torsion4, affineAdd (affX P, affY P) t = (affX Q, affY Q)

theorem powModAux_correct :
    ∀ (fuel e b m : ℕ), e < 2 ^ fuel → powModAux fuel b e m = b ^ e % m := by
  intro fuel
  induction fuel with
  | zero =>
    intro e b m he
    have he0 : e = 0 := by simpa using he
    subst he0
    simp [powModAux]
  | succ n ih =>
    intro e b m he
    rw [powModAux]
    by_cases he0 : e = 0
    · simp [he0]
    · simp only [he0, if_false]
      have h2 : e / 2 < 2 ^ n := Nat.div_lt_of_lt_mul (by rw [← pow_succ']; exact he)
      rw [ih _ _ _ h2]
      have key : (b * b % m) ^ (e / 2) % m = b ^ (2 * (e / 2)) % m := by
        rw [← Nat.pow_mod, pow_mul, pow_two]
      by_cases hpar : e % 2 = 1
      · simp only [hpar, if_pos]
        have hee : 2 * (e / 2) + 1 = e := by omega
        rw [key, Nat.mod_mul_mod, ← pow_succ, hee]
      · simp only [hpar, if_false]
        have hee : 2 * (e / 2) = e := by omega
        rw [key, hee]

theorem zmod_pow_eq_of_powModAux (n a e fuel r : ℕ) (hfuel : e < 2 ^ fuel)
    (h : powModAux fuel a e n = r) : ((a : ZMod n)) ^ e = ((r : ℕ) : ZMod n) := by
  rw [powModAux_correct fuel e a n hfuel] at h
  rw [← h, ← Nat.cast_pow, ZMod.natCast_mod]

theorem zmod_pow_eq_one_of_powModAux (n a e fuel : ℕ) (hfuel : e < 2 ^ fuel)
    (h : powModAux fuel a e n = 1 % n) : ((a : ZMod n)) ^ e = 1 := by
  have hh := zmod_pow_eq_of_powModAux n a e fuel (1 % n) hfuel h
  rwa [ZMod.natCast_mod, Nat.cast_one] at hh

theorem zmod_pow_ne_one_of_powModAux (n a e fuel : ℕ) (hn : 1 < n) (hfuel : e < 2 ^ fuel)
    (h : powModAux fuel a e n ≠ 1) : ((a : ZMod n)) ^ e ≠ 1 := by
  intro hcon
  apply h
  rw [powModAux_correct fuel e a n hfuel]
  haveI : NeZero n := ⟨by omega⟩
  haveI : Fact (1 < n) := ⟨hn⟩
  have h1 : ((a ^ e % n : ℕ) : ZMod n) = 1 := by
    rw [ZMod.natCast_mod, Nat.cast_pow]
    exact hcon
  have h2 := congrArg ZMod.val h1
  rwa [ZMod.val_natCast_of_lt (Nat.mod_lt _ (by omega)), ZMod.val_one] at h2

theorem eq_prime_of_dvd_prime (q r : ℕ) (hq : q.Prime) (hr : r.Prime) (h : q ∣ r) : q = r :=
  (Nat.prime_dvd_prime_iff_eq hq hr).mp h
set_option maxRecDepth 400000 in
theorem prime_cert_2773320623 : Nat.Prime 2773320623 := by
  apply lucas_primality 2773320623 ((5 : ℕ) : ZMod 2773320623)
  · exact zmod_pow_eq_one_of_powModAux _ _ _ 256 (by norm_num) (by decide)
  · intro q hq hdvd
    have hfac : 2773320623 - 1 = 2 * (2437 * (569003)) := by norm_num
    rw [hfac] at hdvd
    rcases (Nat.Prime.dvd_mul hq).mp hdvd with h | h
    · have hqe : q = 2 := eq_prime_of_dvd_prime q 2 hq (by norm_num) h
      subst hqe
      exact zmod_pow_ne_one_of_powModAux _ _ _ 256 (by norm_num) (by norm_num) (by decide)
    rcases (Nat.Prime.dvd_mul hq).mp h with h | h
    · have hqe : q = 2437 := eq_prime_of_dvd_prime q 2437 hq (by norm_num) h
      subst hqe
      exact zmod_pow_ne_one_of_powModAux _ _ _ 256 (by norm_num) (by norm_num) (by decide)
    · have hqe : q = 569003 := eq_prime_of_dvd_prime q 569003 hq (by norm_num) h
      subst hqe
      exact zmod_pow_ne_one_of_powModAux _ _ _ 256 (by norm_num) (by norm_num) (by decide)

set_option maxRecDepth 400000 in
theorem prime_cert_7210633619 : Nat.Prime 72106336199 := by
  apply lucas_primality 72106336199 ((7 : ℕ) : ZMod 72106336199)
  · exact zmod_pow_eq_one_of_powModAux _ _ _ 256 (by norm_num) (by decide)
  · intro q hq hdvd
    have hfac : 72106336199 - 1 = 2 * (13 * (2773320623)) := by norm_num
    rw [hfac] at hdvd
    rcases (Nat.Prime.dvd_mul hq).mp hdvd with h | h
    · have hqe : q = 2 := eq_prime_of_dvd_prime q 2 hq (by norm_num) h
      subst hqe
      exact zmod_pow_ne_one_of_powModAux _ _ _ 256 (by norm_num) (by norm_num) (by decide)
    rcases (Nat.Prime.dvd_mul hq).mp h with h | h
    · have hqe : q = 13 := eq_prime_of_dvd_prime q 13 hq (by norm_num) h
      subst hqe
      exact zmod_pow_ne_one_of_powModAux _ _ _ 256 (by norm_num) (by norm_num) (by decide)
    · have hqe : q = 2773320623 := eq_prime_of_dvd_prime q 2773320623 hq prime_cert_2773320623 h
      subst hqe
      exact zmod_pow_ne_one_of_powModAux _ _ _ 256 (by norm_num) (by norm_num) (by decide)

set_option maxRecDepth 400000 in
theorem prime_cert_1919519569 : Nat.Prime 1919519569386763 := by
  apply lucas_primality 1919519569386763 ((2 : ℕ) : ZMod 1919519569386763)
  · exact zmod_pow_eq_one_of_powModAux _ _ _ 256 (by norm_num) (by decide)
  · intro q hq hdvd
    have hfac : 1919519569386763 - 1 = 2 * (3 * (7 * (19 * (47 * (47 * (127 * (8574133))))))) := by norm_num
    rw [hfac] at hdvd
    rcases (Nat.Prime.dvd_mul hq).mp hdvd with h | h
    · have hqe : q = 2 := eq_prime_of_dvd_prime q 2 hq (by norm_num) h
      subst hqe
      exact zmod_pow_ne_one_of_powModAux _ _ _ 256 (by norm_num) (by norm_num) (by decide)
    rcases (Nat.Prime.dvd_mul hq).mp h with h | h
    · have hqe : q = 3 := eq_prime_of_dvd_prime q 3 hq (by norm_num) h
      subst hqe
      exact zmod_pow_ne_one_of_powModAux _ _ _ 256 (by norm_num) (by norm_num) (by decide)
    rcases (Nat.Prime.dvd_mul hq).mp h with h | h
    · have hqe : q = 7 := eq_prime_of_dvd_prime q 7 hq (by norm_num) h
      subst hqe
      exact zmod_pow_ne_one_of_powModAux _ _ _ 256 (by norm_num) (by norm_num) (by decide)
    rcases (Nat.Prime.dvd_mul hq).mp h with h | h
    · have hqe : q = 19 := eq_prime_of_dvd_prime q 19 hq (by norm_num) h
      subst hqe
      exact zmod_pow_ne_one_of_powModAux _ _ _ 256 (by norm_num) (by norm_num) (by decide)
    rcases (Nat.Prime.dvd_mul hq).mp h with h | h
    · have hqe : q = 47 := eq_prime_of_dvd_prime q 47 hq (by norm_num) h
      subst hqe
      exact zmod_pow_ne_one_of_powModAux _ _ _ 256 (by norm_num) (by norm_num) (by decide)
    rcases (Nat.Prime.dvd_mul hq).mp h with h | h
    · have hqe : q = 47 := eq_prime_of_dvd_prime q 47 hq (by norm_num) h
      subst hqe
      exact zmod_pow_ne_one_of_powModAux _ _ _ 256 (by norm_num) (by norm_num) (by decide)
    rcases (Nat.Prime.dvd_mul hq).mp h with h | h
    · have hqe : q = 127 := eq_prime_of_dvd_prime q 127 hq (by norm_num) h
      subst hqe
      exact zmod_pow_ne_one_of_powModAux _ _ _ 256 (by norm_num) (by norm_num) (by decide)
    · have hqe : q = 8574133 := eq_prime_of_dvd_prime q 8574133 hq (by norm_num) h
      subst hqe
      exact zmod_pow_ne_one_of_powModAux _ _ _ 256 (by norm_num) (by norm_num) (by decide)

set_option maxRecDepth 400000 in
theorem prime_cert_3175775556 : Nat.Prime 31757755568855353 := by
  apply lucas_primality 31757755568855353 ((10 : ℕ) : ZMod 31757755568855353)
  · exact zmod_pow_eq_one_of_powModAux _ _ _ 256 (by norm_num) (by decide)
  · intro q hq hdvd
    have hfac : 31757755568855353 - 1 = 2 * (2 * (2 * (3 * (31 * (107 * (223 * (4153 * (430751)))))))) := by norm_num
    rw [hfac] at hdvd
    rcases (Nat.Prime.dvd_mul hq).mp hdvd with h | h
    · have hqe : q = 2 := eq_prime_of_dvd_prime q 2 hq (by norm_num) h
      subst hqe
      exact zmod_pow_ne_one_of_powModAux _ _ _ 256 (by norm_num) (by norm_num) (by decide)
    rcases (Nat.Prime.dvd_mul hq).mp h with h | h
    · have hqe : q = 2 := eq_prime_of_dvd_prime q 2 hq (by norm_num) h
      subst hqe
      exact zmod_pow_ne_one_of_powModAux _ _ _ 256 (by norm_num) (by norm_num) (by decide)
    rcases (Nat.Prime.dvd_mul hq).mp h with h | h
    · have hqe : q = 2 := eq_prime_of_dvd_prime q 2 hq (by norm_num) h
      subst hqe
      exact zmod_pow_ne_one_of_powModAux _ _ _ 256 (by norm_num) (by norm_num) (by decide)
    rcases (Nat.Prime.dvd_mul hq).mp h with h | h
    · have hqe : q = 3 := eq_prime_of_dvd_prime q 3 hq (by norm_num) h
      subst hqe
      exact zmod_pow_ne_one_of_powModAux _ _ _ 256 (by norm_num) (by norm_num) (by decide)
    rcases (Nat.Prime.dvd_mul hq).mp h with h | h
    · have hqe : q = 31 := eq_prime_of_dvd_prime q 31 hq (by norm_num) h
      subst hqe
      exact zmod_pow_ne_one_of_powModAux _ _ _ 256 (by norm_num) (by norm_num) (by decide)
    rcases (Nat.Prime.dvd_mul hq).mp h with h | h
    · have hqe : q = 107 := eq_prime_of_dvd_prime q 107 hq (by norm_num) h
      subst hqe
      exact zmod_pow_ne_one_of_powModAux _ _ _ 256 (by norm_num) (by norm_num) (by decide)
    rcases (Nat.Prime.dvd_mul hq).mp h with h | h
    · have hqe : q = 223 := eq_prime_of_dvd_prime q 223 hq (by norm_num) h
      subst hqe
      exact zmod_pow_ne_one_of_powModAux _ _ _ 256 (by norm_num) (by norm_num) (by decide)
    rcases (Nat.Prime.dvd_mul hq).mp h with h | h
    · have hqe : q = 4153 := eq_prime_of_dvd_prime q 4153 hq (by norm_num) h
      subst hqe
      exact zmod_pow_ne_one_of_powModAux _ _ _ 256 (by norm_num) (by norm_num) (by decide)
    · have hqe : q = 430751 := eq_prime_of_dvd_prime q 430751 hq (by norm_num) h
      subst hqe
      exact zmod_pow_ne_one_of_powModAux _ _ _ 256 (by norm_num) (by norm_num) (by decide)

set_option maxRecDepth 400000 in
theorem prime_cert_7544570247 : Nat.Prime 75445702479781427272750846543864801 := by
  apply lucas_primality 75445702479781427272750846543864801 ((7 : ℕ) : ZMod 75445702479781427272750846543864801)
  · exact zmod_pow_eq_one_of_powModAux _ _ _ 256 (by norm_num) (by decide)
  · intro q hq hdvd
    have hfac : 75445702479781427272750846543864801 - 1 = 2 * (2 * (2 * (2 * (2 * (3 * (3 * (5 * (5 * (75707 * (72106336199 * (1919519569386763))))))))))) := by norm_num
    rw [hfac] at hdvd
    rcases (Nat.Prime.dvd_mul hq).mp hdvd with h | h
    · have hqe : q = 2 := eq_prime_of_dvd_prime q 2 hq (by norm_num) h
      subst hqe
      exact zmod_pow_ne_one_of_powModAux _ _ _ 256 (by norm_num) (by norm_num) (by decide)
    rcases (Nat.Prime.dvd_mul hq).mp h with h | h
    · have hqe : q = 2 := eq_prime_of_dvd_prime q 2 hq (by norm_num) h
      subst hqe
      exact zmod_pow_ne_one_of_powModAux _ _ _ 256 (by norm_num) (by norm_num) (by decide)
    rcases (Nat.Prime.dvd_mul hq).mp h with h | h
    · have hqe : q = 2 := eq_prime_of_dvd_prime q 2 hq (by norm_num) h
      subst hqe
      exact zmod_pow_ne_one_of_powModAux _ _ _ 256 (by norm_num) (by norm_num) (by decide)
    rcases (Nat.Prime.dvd_mul hq).mp h with h | h
    · have hqe : q = 2 := eq_prime_of_dvd_prime q 2 hq (by norm_num) h
      subst hqe
      exact zmod_pow_ne_one_of_powModAux _ _ _ 256 (by norm_num) (by norm_num) (by decide)
    rcases (Nat.Prime.dvd_mul hq).mp h with h | h
    · have hqe : q = 2 := eq_prime_of_dvd_prime q 2 hq (by norm_num) h
      subst hqe
      exact zmod_pow_ne_one_of_powModAux _ _ _ 256 (by norm_num) (by norm_num) (by decide)
    rcases (Nat.Prime.dvd_mul hq).mp h with h | h
    · have hqe : q = 3 := eq_prime_of_dvd_prime q 3 hq (by norm_num) h
      subst hqe
      exact zmod_pow_ne_one_of_powModAux _ _ _ 256 (by norm_num) (by norm_num) (by decide)
    rcases (Nat.Prime.dvd_mul hq).mp h with h | h
    · have hqe : q = 3 := eq_prime_of_dvd_prime q 3 hq (by norm_num) h
      subst hqe
      exact zmod_pow_ne_one_of_powModAux _ _ _ 256 (by norm_num) (by norm_num) (by decide)
    rcases (Nat.Prime.dvd_mul hq).mp h with h | h
    · have hqe : q = 5 := eq_prime_of_dvd_prime q 5 hq (by norm_num) h
      subst hqe
      exact zmod_pow_ne_one_of_powModAux _ _ _ 256 (by norm_num) (by norm_num) (by decide)
    rcases (Nat.Prime.dvd_mul hq).mp h with h | h
    · have hqe : q = 5 := eq_prime_of_dvd_prime q 5 hq (by norm_num) h
      subst hqe
      exact zmod_pow_ne_one_of_powModAux _ _ _ 256 (by norm_num) (by norm_num) (by decide)
    rcases (Nat.Prime.dvd_mul hq).mp h with h | h
    · have hqe : q = 75707 := eq_prime_of_dvd_prime q 75707 hq (by norm_num) h
      subst hqe
      exact zmod_pow_ne_one_of_powModAux _ _ _ 256 (by norm_num) (by norm_num) (by decide)
    rcases (Nat.Prime.dvd_mul hq).mp h with h | h
    · have hqe : q = 72106336199 := eq_prime_of_dvd_prime q 72106336199 hq prime_cert_7210633619 h
      subst hqe
      exact zmod_pow_ne_one_of_powModAux _ _ _ 256 (by norm_num) (by norm_num) (by decide)
    · have hqe : q = 1919519569386763 := eq_prime_of_dvd_prime q 1919519569386763 hq prime_cert_1919519569 h
      subst hqe
      exact zmod_pow_ne_one_of_powModAux _ _ _ 256 (by norm_num) (by norm_num) (by decide)

set_option maxRecDepth 400000 in
theorem prime_cert_7405821273 : Nat.Prime 74058212732561358302231226437062788676166966415465897661863160754340907 := by
  apply lucas_primality 74058212732561358302231226437062788676166966415465897661863160754340907 ((2 : ℕ) : ZMod 74058212732561358302231226437062788676166966415465897661863160754340907)
  · exact zmod_pow_eq_one_of_powModAux _ _ _ 256 (by norm_num) (by decide)
  · intro q hq hdvd
    have hfac : 74058212732561358302231226437062788676166966415465897661863160754340907 - 1 = 2 * (3 * (353 * (57467 * (132049 * (1923133 * (31757755568855353 * (75445702479781427272750846543864801))))))) := by norm_num
    rw [hfac] at hdvd
    rcases (Nat.Prime.dvd_mul hq).mp hdvd with h | h
    · have hqe : q = 2 := eq_prime_of_dvd_prime q 2 hq (by norm_num) h
      subst hqe
      exact zmod_pow_ne_one_of_powModAux _ _ _ 256 (by norm_num) (by norm_num) (by decide)
    rcases (Nat.Prime.dvd_mul hq).mp h with h | h
    · have hqe : q = 3 := eq_prime_of_dvd_prime q 3 hq (by norm_num) h
      subst hqe
      exact zmod_pow_ne_one_of_powModAux _ _ _ 256 (by norm_num) (by norm_num) (by decide)
    rcases (Nat.Prime.dvd_mul hq).mp h with h | h
    · have hqe : q = 353 := eq_prime_of_dvd_prime q 353 hq (by norm_num) h
      subst hqe
      exact zmod_pow_ne_one_of_powModAux _ _ _ 256 (by norm_num) (by norm_num) (by decide)
    rcases (Nat.Prime.dvd_mul hq).mp h with h | h
    · have hqe : q = 57467 := eq_prime_of_dvd_prime q 57467 hq (by norm_num) h
      subst hqe
      exact zmod_pow_ne_one_of_powModAux _ _ _ 256 (by norm_num) (by norm_num) (by decide)
    rcases (Nat.Prime.dvd_mul hq).mp h with h | h
    · have hqe : q = 132049 := eq_prime_of_dvd_prime q 132049 hq (by norm_num) h
      subst hqe
      exact zmod_pow_ne_one_of_powModAux _ _ _ 256 (by norm_num) (by norm_num) (by decide)
    rcases (Nat.Prime.dvd_mul hq).mp h with h | h
    · have hqe : q = 1923133 := eq_prime_of_dvd_prime q 1923133 hq (by norm_num) h
      subst hqe
      exact zmod_pow_ne_one_of_powModAux _ _ _ 256 (by norm_num) (by norm_num) (by decide)
    rcases (Nat.Prime.dvd_mul hq).mp h with h | h
    · have hqe : q = 31757755568855353 := eq_prime_of_dvd_prime q 31757755568855353 hq prime_cert_3175775556 h
      subst hqe
      exact zmod_pow_ne_one_of_powModAux _ _ _ 256 (by norm_num) (by norm_num) (by decide)
    · have hqe : q = 75445702479781427272750846543864801 := eq_prime_of_dvd_prime q 75445702479781427272750846543864801 hq prime_cert_7544570247 h
      subst hqe
      exact zmod_pow_ne_one_of_powModAux _ _ _ 256 (by norm_num) (by norm_num) (by decide)

set_option maxRecDepth 400000 in
theorem prime_cert_5789604461 : Nat.Prime 57896044618658097711785492504343953926634992332820282019728792003956564819949 := by
  apply lucas_primality 57896044618658097711785492504343953926634992332820282019728792003956564819949 ((2 : ℕ) : ZMod 57896044618658097711785492504343953926634992332820282019728792003956564819949)
  · exact zmod_pow_eq_one_of_powModAux _ _ _ 256 (by norm_num) (by decide)
  · intro q hq hdvd
    have hfac : 57896044618658097711785492504343953926634992332820282019728792003956564819949 - 1 = 2 * (2 * (3 * (65147 * (74058212732561358302231226437062788676166966415465897661863160754340907)))) := by norm_num
    rw [hfac] at hdvd
    rcases (Nat.Prime.dvd_mul hq).mp hdvd with h | h
    · have hqe : q = 2 := eq_prime_of_dvd_prime q 2 hq (by norm_num) h
      subst hqe
      exact zmod_pow_ne_one_of_powModAux _ _ _ 256 (by norm_num) (by norm_num) (by decide)
    rcases (Nat.Prime.dvd_mul hq).mp h with h | h
    · have hqe : q = 2 := eq_prime_of_dvd_prime q 2 hq (by norm_num) h
      subst hqe
      exact zmod_pow_ne_one_of_powModAux _ _ _ 256 (by norm_num) (by norm_num) (by decide)
    rcases (Nat.Prime.dvd_mul hq).mp h with h | h
    · have hqe : q = 3 := eq_prime_of_dvd_prime q 3 hq (by norm_num) h
      subst hqe
      exact zmod_pow_ne_one_of_powModAux _ _ _ 256 (by norm_num) (by norm_num) (by decide)
    rcases (Nat.Prime.dvd_mul hq).mp h with h | h
    · have hqe : q = 65147 := eq_prime_of_dvd_prime q 65147 hq (by norm_num) h
      subst hqe
      exact zmod_pow_ne_one_of_powModAux _ _ _ 256 (by norm_num) (by norm_num) (by decide)
    · have hqe : q = 74058212732561358302231226437062788676166966415465897661863160754340907 := eq_prime_of_dvd_prime q 74058212732561358302231226437062788676166966415465897661863160754340907 hq prime_cert_7405821273 h
      subst hqe
      exact zmod_pow_ne_one_of_powModAux _ _ _ 256 (by norm_num) (by norm_num) (by decide)

theorem p_prime : Nat.Prime p := by
  have h := prime_cert_5789604461
  have hp : p = 57896044618658097711785492504343953926634992332820282019728792003956564819949 := by norm_num [p]
  rwa [hp]

instance p_prime_fact : Fact (Nat.Prime p) := ⟨p_prime⟩

instance p_neZero : NeZero p := ⟨p_prime.ne_zero⟩
-- batch 1 trial: appended to W.lean for testing
theorem F_natCast_eq_iff (a b : ℕ) : ((a : F) = (b : F)) ↔ a % p = b % p :=
  ZMod.natCast_eq_natCast_iff' a b p

theorem cast_p_sub_one : ((p - 1 : ℕ) : F) = -1 := by
  have h1 : (1 : ℕ) ≤ p := by norm_num [p]
  rw [Nat.cast_sub h1, ZMod.natCast_self, Nat.cast_one, zero_sub]

theorem two_ne_zero_F : (2 : F) ≠ 0 := by
  intro h2
  have h3 : ((2 : ℕ) : F) = ((0 : ℕ) : F) := by push_cast; exact h2
  rw [F_natCast_eq_iff] at h3
  norm_num [p] at h3

theorem sqrtM1_mul_self : sqrtM1 * sqrtM1 = -1 := by
  rw [sqrtM1, ← Nat.cast_mul, ← cast_p_sub_one, F_natCast_eq_iff]
  norm_num [p]

theorem sqrtM1_ne_zero : sqrtM1 ≠ 0 := by
  intro h
  have h2 := sqrtM1_mul_self
  rw [h, mul_zero] at h2
  apply two_ne_zero_F
  linear_combination (2 : F) * h2

theorem one_ne_neg_one_F : (1 : F) ≠ -1 := by
  intro h
  apply two_ne_zero_F
  linear_combination h

theorem sqrtM1_ne_one : sqrtM1 ≠ 1 := by
  intro h
  have := sqrtM1_mul_self
  rw [h, mul_one] at this
  exact one_ne_neg_one_F this

theorem sqrtM1_ne_neg_one : sqrtM1 ≠ -1 := by
  intro h
  have h2 := sqrtM1_mul_self
  rw [h] at h2
  have h3 : (1 : F) = -1 := by linear_combination h2
  exact one_ne_neg_one_F h3
-- batch 2: byte serialization, FeEqual, FeIsNegative, FeAbs
theorem digits_inj : ∀ (k a b : ℕ), a < 256 ^ k → b < 256 ^ k →
    (∀ i < k, a / 256 ^ i % 256 = b / 256 ^ i % 256) → a = b := by
  intro k
  induction k with
  | zero =>
    intro a b ha hb _
    simp only [pow_zero, Nat.lt_one_iff] at ha hb
    omega
  | succ n ih =>
    intro a b ha hb h
    have h0 : a % 256 = b % 256 := by
      have := h 0 (Nat.succ_pos n)
      simpa using this
    have hrec : a / 256 = b / 256 := by
      apply ih
      · exact Nat.div_lt_of_lt_mul (by rw [mul_comm, ← pow_succ]; exact ha)
      · exact Nat.div_lt_of_lt_mul (by rw [mul_comm, ← pow_succ]; exact hb)
      · intro i hi
        have hh := h (i + 1) (by omega)
        rw [Nat.div_div_eq_div_mul, Nat.div_div_eq_div_mul, mul_comm 256 (256 ^ i),
          ← pow_succ] at *
        exact hh
    omega

theorem val_lt_digits_bound (x : F) : x.val < 256 ^ 32 := by
  have h := ZMod.val_lt x
  have h2 : p < 256 ^ 32 := by norm_num [p]
  omega

theorem feToBytes_inj (a b : F) : feToBytes a = feToBytes b ↔ a = b := by
  constructor
  · intro h
    have hd : ∀ i < 32, a.val / 256 ^ i % 256 = b.val / 256 ^ i % 256 := by
      intro i hi
      have := congrArg (fun l => l[i]?) h
      simp only [feToBytes, List.getElem?_map, List.getElem?_range hi] at this
      simpa using this
    have := digits_inj 32 a.val b.val (val_lt_digits_bound a) (val_lt_digits_bound b) hd
    exact ZMod.val_injective p this
  · intro h; rw [h]

theorem FeEqual_eq_one_iff (a b : F) : FeEqual a b = 1 ↔ a = b := by
  rw [FeEqual]
  constructor
  · intro h
    by_cases hc : feToBytes a = feToBytes b
    · exact (feToBytes_inj a b).mp hc
    · simp [hc] at h
  · intro h
    simp [h]

theorem FeEqual_eq_zero_iff (a b : F) : FeEqual a b = 0 ↔ a ≠ b := by
  rw [FeEqual]
  by_cases hc : feToBytes a = feToBytes b
  · simp [hc, (feToBytes_inj a b).mp hc]
  · simp [hc]
    intro h
    exact hc ((feToBytes_inj a b).mpr h)

theorem FeEqual_of_eq {a b : F} (h : a = b) : FeEqual a b = 1 :=
  (FeEqual_eq_one_iff a b).mpr h

theorem FeEqual_of_ne {a b : F} (h : a ≠ b) : FeEqual a b = 0 :=
  (FeEqual_eq_zero_iff a b).mpr h

theorem FeIsNegative_eq (u : F) : FeIsNegative u = u.val % 2 := by
  rw [FeIsNegative, feToBytes]
  rw [show (32 : ℕ) = 31 + 1 from rfl, List.range_succ_eq_map]
  simp only [List.map_cons, List.headI]
  rw [Nat.and_one_is_mod]
  rw [pow_zero, Nat.div_one, Nat.mod_mod_of_dvd _ (by norm_num)]

theorem FeIsNegative_zero_or_one (u : F) : FeIsNegative u = 0 ∨ FeIsNegative u = 1 := by
  rw [FeIsNegative_eq]
  omega

theorem FeIsNegative_zero : FeIsNegative (0 : F) = 0 := by
  rw [FeIsNegative_eq, ZMod.val_zero]

theorem FeIsNegative_add_neg (x : F) (hx : x ≠ 0) :
    FeIsNegative x + FeIsNegative (-x) = 1 := by
  rw [FeIsNegative_eq, FeIsNegative_eq, ZMod.neg_val, if_neg hx]
  have h1 : 0 < x.val := by
    rcases Nat.eq_zero_or_pos x.val with h | h
    · exact absurd ((ZMod.val_eq_zero x).mp h) hx
    · exact h
  have h2 : x.val < p := ZMod.val_lt x
  have h3 : p % 2 = 1 := by norm_num [p]
  omega

theorem FeAbs_eq (x : F) : FeAbs x = if FeIsNegative x = 1 then -x else x := by
  rw [FeAbs, FeSelect]

theorem FeAbs_zero : FeAbs (0 : F) = 0 := by
  rw [FeAbs_eq, FeIsNegative_zero]
  simp

theorem FeIsNegative_FeAbs (x : F) : FeIsNegative (FeAbs x) = 0 := by
  by_cases hx : x = 0
  · rw [hx, FeAbs_zero, FeIsNegative_zero]
  · rw [FeAbs_eq]
    rcases FeIsNegative_zero_or_one x with h | h
    · rw [h]; simp only [if_neg (by omega : ¬(0 : ℕ) = 1)]; exact h
    · rw [h, if_pos rfl]
      have := FeIsNegative_add_neg x hx
      omega

theorem FeAbs_mul_self (x : F) : FeAbs x * FeAbs x = x * x := by
  rw [FeAbs_eq]
  split
  · ring
  · ring

theorem FeAbs_neg (x : F) : FeAbs (-x) = FeAbs x := by
  by_cases hx : x = 0
  · rw [hx, neg_zero]
  · have hsum := FeIsNegative_add_neg x hx
    rw [FeAbs_eq, FeAbs_eq]
    rcases FeIsNegative_zero_or_one x with h | h
    · rw [h]
      have hn : FeIsNegative (-x) = 1 := by omega
      rw [hn, if_pos rfl, if_neg (by omega : ¬(0:ℕ) = 1), neg_neg]
    · rw [h]
      have hn : FeIsNegative (-x) = 0 := by omega
      rw [hn, if_neg (by omega : ¬(0:ℕ) = 1), if_pos rfl]

theorem nonneg_sq_unique (x y : F) (hx : FeIsNegative x = 0) (hy : FeIsNegative y = 0)
    (h : x * x = y * y) : x = y := by
  rcases mul_self_eq_mul_self_iff.mp h with h1 | h1
  · exact h1
  · by_cases hy0 : y = 0
    · rw [hy0, neg_zero] at h1
      rw [h1, hy0]
    · have := FeIsNegative_add_neg y hy0
      rw [h1] at hx
      omega

theorem lor_one_one : (1 : ℕ) ||| 1 = 1 := rfl

theorem lor_one_zero : (1 : ℕ) ||| 0 = 1 := rfl

theorem lor_zero_one : (0 : ℕ) ||| 1 = 1 := rfl

theorem lor_zero_zero : (0 : ℕ) ||| 0 = 0 := rfl
-- batch 3: exponentiation chain; characters
theorem feSquareTimes_pow (z : F) : ∀ (n a : ℕ), feSquareTimes n (z ^ a) = z ^ (a * 2 ^ n) := by
  intro n
  induction n with
  | zero => intro a; simp [feSquareTimes]
  | succ k ih =>
    intro a
    rw [feSquareTimes, ← pow_add, ih (a + a)]
    congr 1
    ring

theorem feSquareTimes_pow_one (z : F) (n : ℕ) : feSquareTimes n z = z ^ (2 ^ n) := by
  have h := feSquareTimes_pow z n 1
  rwa [pow_one, one_mul] at h

theorem fePow22523_eq (z : F) : fePow22523 z = z ^ (2 ^ 252 - 3) := by
  simp only [fePow22523, feSquareTimes_pow_one, ← pow_mul, ← pow_add, ← pow_succ, ← pow_succ']
  norm_num

theorem pow_p_sub_one_div_two_sq (x : F) (hx : x ≠ 0) :
    x ^ ((p - 1) / 2) = 1 ∨ x ^ ((p - 1) / 2) = -1 := by
  have hflt : x ^ (p - 1) = 1 := ZMod.pow_card_sub_one_eq_one hx
  have h2 : (p - 1) / 2 * 2 = p - 1 := by norm_num [p]
  have hsq : x ^ ((p - 1) / 2) * x ^ ((p - 1) / 2) = 1 := by
    rw [← pow_add]
    rw [show (p - 1) / 2 + (p - 1) / 2 = (p - 1) / 2 * 2 by ring, h2]
    exact hflt
  exact mul_self_eq_one_iff.mp hsq

theorem chi_one_of_sq (x c : F) (hc : c ≠ 0) (h : x = c * c) : x ^ ((p - 1) / 2) = 1 := by
  subst h
  have h2 : 2 * ((p - 1) / 2) = p - 1 := by norm_num [p]
  rw [← pow_two, ← pow_mul, h2]
  exact ZMod.pow_card_sub_one_eq_one hc

theorem not_sq_of_chi_neg_one (x : F) (hchi : x ^ ((p - 1) / 2) = -1) :
    ∀ c : F, c * c ≠ x := by
  intro c hcon
  have hc : c ≠ 0 := by
    intro h0
    rw [h0, mul_zero] at hcon
    rw [← hcon, zero_pow (by norm_num [p] : (p - 1) / 2 ≠ 0)] at hchi
    have h1 : (1 : F) = 0 := by linear_combination hchi
    exact one_ne_zero h1
  have := chi_one_of_sq x c hc hcon.symm
  rw [this] at hchi
  exact one_ne_neg_one_F hchi

set_option maxRecDepth 400000 in
theorem chi_dConst : dConst ^ ((p - 1) / 2) = -1 := by
  rw [dConst]
  have h := zmod_pow_eq_of_powModAux p
    37095705934669439343138083508754565189542113879843219016388785533085940283555
    ((p - 1) / 2) 256 (p - 1) (by norm_num [p]) (by decide)
  rw [h, cast_p_sub_one]

set_option maxRecDepth 400000 in
theorem chi_neg_dConst : (-dConst) ^ ((p - 1) / 2) = -1 := by
  have hcast : (-dConst) = ((p - 37095705934669439343138083508754565189542113879843219016388785533085940283555 : ℕ) : F) := by
    rw [dConst, Nat.cast_sub (by norm_num [p]), ZMod.natCast_self, zero_sub]
  rw [hcast]
  have h := zmod_pow_eq_of_powModAux p
    (p - 37095705934669439343138083508754565189542113879843219016388785533085940283555)
    ((p - 1) / 2) 256 (p - 1) (by norm_num [p]) (by decide)
  rw [h, cast_p_sub_one]

set_option maxRecDepth 400000 in
theorem chi_d_mul_d_add_one : (dConst * (dConst + 1)) ^ ((p - 1) / 2) = -1 := by
  have hcast : dConst * (dConst + 1) =
      ((37095705934669439343138083508754565189542113879843219016388785533085940283555 *
        (37095705934669439343138083508754565189542113879843219016388785533085940283556) : ℕ) : F) := by
    rw [dConst]
    push_cast
    ring
  rw [hcast]
  have h := zmod_pow_eq_of_powModAux p
    (37095705934669439343138083508754565189542113879843219016388785533085940283555 *
      37095705934669439343138083508754565189542113879843219016388785533085940283556)
    ((p - 1) / 2) 256 (p - 1) (by norm_num [p]) (by decide)
  rw [h, cast_p_sub_one]
-- batch 4: constant identities and degenerate-case exclusions
theorem oneMinusDSQ_spec : oneMinusDSQ = 1 - dConst * dConst := by
  have h : ((1159843021668779879193775521855586647937357759715417654439879720876111806838 +
      37095705934669439343138083508754565189542113879843219016388785533085940283555 *
      37095705934669439343138083508754565189542113879843219016388785533085940283555 : ℕ) : F) =
      ((1 : ℕ) : F) := by
    rw [F_natCast_eq_iff]
    norm_num [p]
  push_cast at h
  rw [oneMinusDSQ, dConst]
  push_cast
  linear_combination h

theorem dMinusOneSQ_spec : dMinusOneSQ = (dConst - 1) * (dConst - 1) := by
  have h : ((40440834346308536858101042469323190826248399146238708352240133220865137265952 +
      2 * 37095705934669439343138083508754565189542113879843219016388785533085940283555 : ℕ) : F) =
      ((37095705934669439343138083508754565189542113879843219016388785533085940283555 *
      37095705934669439343138083508754565189542113879843219016388785533085940283555 + 1 : ℕ) : F) := by
    rw [F_natCast_eq_iff]
    norm_num [p]
  push_cast at h
  rw [dMinusOneSQ, dConst]
  push_cast
  linear_combination h

theorem sqrtADMinusOne_spec : sqrtADMinusOne * sqrtADMinusOne = -dConst - 1 := by
  have h : ((25063068953384623474111414158702152701244531502492656460079210482610430750235 *
      25063068953384623474111414158702152701244531502492656460079210482610430750235 +
      37095705934669439343138083508754565189542113879843219016388785533085940283555 + 1 : ℕ) : F) =
      ((0 : ℕ) : F) := by
    rw [F_natCast_eq_iff]
    norm_num [p]
  push_cast at h
  rw [sqrtADMinusOne, dConst]
  push_cast
  linear_combination h

theorem dConst_ne_zero : dConst ≠ 0 := by
  intro h
  have h2 : ((37095705934669439343138083508754565189542113879843219016388785533085940283555 : ℕ) : F) =
      ((0 : ℕ) : F) := by
    rw [← dConst, h]
    push_cast
    rfl
  rw [F_natCast_eq_iff] at h2
  norm_num [p] at h2

theorem dConst_ne_one : dConst ≠ 1 := by
  intro h
  have h2 : ((37095705934669439343138083508754565189542113879843219016388785533085940283555 : ℕ) : F) =
      ((1 : ℕ) : F) := by
    rw [← dConst, h]
    push_cast
    rfl
  rw [F_natCast_eq_iff] at h2
  norm_num [p] at h2

theorem dConst_add_one_ne_zero : dConst + 1 ≠ 0 := by
  intro h
  have h2 : ((37095705934669439343138083508754565189542113879843219016388785533085940283555 + 1 : ℕ) : F) =
      ((0 : ℕ) : F) := by
    rw [dConst] at h
    push_cast
    push_cast at h
    linear_combination h
  rw [F_natCast_eq_iff] at h2
  norm_num [p] at h2

theorem oneMinusDSQ_ne_zero : oneMinusDSQ ≠ 0 := by
  intro h
  have h2 : ((1159843021668779879193775521855586647937357759715417654439879720876111806838 : ℕ) : F) =
      ((0 : ℕ) : F) := by
    rw [← oneMinusDSQ, h]
    push_cast
    rfl
  rw [F_natCast_eq_iff] at h2
  norm_num [p] at h2

theorem dMinusOneSQ_ne_zero : dMinusOneSQ ≠ 0 := by
  intro h
  have h2 : ((40440834346308536858101042469323190826248399146238708352240133220865137265952 : ℕ) : F) =
      ((0 : ℕ) : F) := by
    rw [← dMinusOneSQ, h]
    push_cast
    rfl
  rw [F_natCast_eq_iff] at h2
  norm_num [p] at h2

theorem sqrtADMinusOne_ne_zero : sqrtADMinusOne ≠ 0 := by
  intro h
  have h2 := sqrtADMinusOne_spec
  rw [h, mul_zero] at h2
  exact dConst_add_one_ne_zero (by linear_combination h2)

theorem sq_eq_d_mul_d_add_one_contra (x y : F) (hy : y ≠ 0)
    (h : x * x = dConst * (dConst + 1) * (y * y)) : False := by
  apply not_sq_of_chi_neg_one _ chi_d_mul_d_add_one (x * y⁻¹)
  field_simp
  linear_combination h

theorem sq_eq_neg_d_contra (x y : F) (hy : y ≠ 0)
    (h : x * x = -dConst * (y * y)) : False := by
  apply not_sq_of_chi_neg_one _ chi_neg_dConst (x * y⁻¹)
  field_simp
  linear_combination h

theorem u_add_v_ne_zero (r : F) :
    (r + 1) * oneMinusDSQ + (-1 - r * dConst) * (r + dConst) ≠ 0 := by
  intro h
  rw [oneMinusDSQ_spec] at h
  have key : (dConst * (r + dConst)) * (dConst * (r + dConst)) =
      dConst * (dConst + 1) * ((dConst - 1) * (dConst - 1)) := by
    linear_combination (-dConst) * h
  exact sq_eq_d_mul_d_add_one_contra _ _ (sub_ne_zero.mpr dConst_ne_one) key

theorem v_add_u_mul_r_ne_zero (r : F) :
    (-1 - r * dConst) * (r + dConst) + ((r + 1) * oneMinusDSQ) * r ≠ 0 := by
  intro h
  rw [oneMinusDSQ_spec] at h
  have key : ((1 - dConst - dConst * dConst) * r - dConst * dConst) *
      ((1 - dConst - dConst * dConst) * r - dConst * dConst) =
      dConst * (dConst + 1) * ((dConst - 1) * (dConst - 1)) := by
    linear_combination (1 - dConst - dConst * dConst) * h
  exact sq_eq_d_mul_d_add_one_contra _ _ (sub_ne_zero.mpr dConst_ne_one) key
-- batch 5: square-root-ratio solver correctness
theorem u_ne_neg_u (u : F) (hu : u ≠ 0) : u ≠ -u := by
  intro h
  apply hu
  have h2 : (2 : F) * u = 0 := by linear_combination h
  rcases mul_eq_zero.mp h2 with h3 | h3
  · exact absurd h3 two_ne_zero_F
  · exact h3

theorem sqrtRatio_post (u v R : F) (hv : v ≠ 0) (hu : u ≠ 0)
    (hg : R * R * v = u * (u * v ^ 7) ^ ((p - 1) / 4)) :
    let out := (FeEqual (R * R * v) u ||| FeEqual (R * R * v) (-u),
      FeAbs (FeSelect (R * sqrtM1) R
        (FeEqual (R * R * v) (-u) ||| FeEqual (R * R * v) ((-u) * sqrtM1))))
    (out.1 = 1 ∨ out.1 = 0) ∧
    FeIsNegative out.2 = 0 ∧
    (out.1 = 1 → out.2 * out.2 * v = u) ∧
    (out.1 = 0 → out.2 * out.2 * v = sqrtM1 * u ∧ ∀ x : F, x * x * v ≠ u) := by
  intro out
  have hx7 : u * v ^ 7 ≠ 0 := mul_ne_zero hu (pow_ne_zero 7 hv)
  set g : F := (u * v ^ 7) ^ ((p - 1) / 4) with hgdef
  have hg2 : g * g = (u * v ^ 7) ^ ((p - 1) / 2) := by
    have he : (p - 1) / 4 + (p - 1) / 4 = (p - 1) / 2 := by norm_num [p]
    rw [hgdef, ← pow_add, he]
  have hg4 : (u * v ^ 7) ^ ((p - 1) / 2) * (u * v ^ 7) ^ ((p - 1) / 2) = 1 := by
    rw [← pow_add]
    rw [show (p - 1) / 2 + (p - 1) / 2 = p - 1 by norm_num [p]]
    exact ZMod.pow_card_sub_one_eq_one hx7
  have hne1 : u ≠ -u := u_ne_neg_u u hu
  have hiu : u * sqrtM1 ≠ 0 := mul_ne_zero hu sqrtM1_ne_zero
  rcases mul_self_eq_one_iff.mp hg4 with hchi | hchi
  · -- the ratio is a square: g = 1 or g = -1
    rw [hchi] at hg2
    rcases mul_self_eq_one_iff.mp hg2 with hcg | hcg
    · -- g = 1 : check = u
      have hC : R * R * v = u := by rw [hg, hcg, mul_one]
      rw [show out = (FeEqual (R * R * v) u ||| FeEqual (R * R * v) (-u),
        FeAbs (FeSelect (R * sqrtM1) R
          (FeEqual (R * R * v) (-u) ||| FeEqual (R * R * v) ((-u) * sqrtM1)))) from rfl, hC]
      rw [FeEqual_of_eq rfl, FeEqual_of_ne hne1]
      have hne3 : u ≠ (-u) * sqrtM1 := by
        intro h
        have h2 : u * (1 + sqrtM1) = 0 := by linear_combination h - u * sqrtM1_mul_self + u * sqrtM1_mul_self
        rcases mul_eq_zero.mp h2 with h3 | h3
        · exact hu h3
        · exact sqrtM1_ne_neg_one (by linear_combination h3)
      rw [FeEqual_of_ne hne3, lor_one_zero, lor_zero_zero]
      refine ⟨Or.inl rfl, FeIsNegative_FeAbs _, fun _ => ?_, fun hcon => by simp at hcon⟩
      rw [FeSelect, if_neg (by omega : ¬(0 : ℕ) = 1), FeAbs_mul_self, hC]
    · -- g = -1 : check = -u
      have hC : R * R * v = -u := by rw [hg, hcg]; ring
      rw [show out = (FeEqual (R * R * v) u ||| FeEqual (R * R * v) (-u),
        FeAbs (FeSelect (R * sqrtM1) R
          (FeEqual (R * R * v) (-u) ||| FeEqual (R * R * v) ((-u) * sqrtM1)))) from rfl, hC]
      have hne4 : -u ≠ (-u) * sqrtM1 := by
        intro h
        have h2 : (-u) * (1 - sqrtM1) = 0 := by linear_combination h
        rcases mul_eq_zero.mp h2 with h3 | h3
        · exact hu (neg_eq_zero.mp h3)
        · exact sqrtM1_ne_one (by linear_combination -h3)
      rw [FeEqual_of_ne (Ne.symm hne1), FeEqual_of_eq rfl, FeEqual_of_ne hne4,
        lor_zero_one, lor_one_zero]
      refine ⟨Or.inl rfl, FeIsNegative_FeAbs _, fun _ => ?_, fun hcon => by simp at hcon⟩
      rw [FeSelect, if_pos rfl, FeAbs_mul_self]
      have : R * sqrtM1 * (R * sqrtM1) * v = (R * R * v) * (sqrtM1 * sqrtM1) := by ring
      rw [this, hC, sqrtM1_mul_self]
      ring
  · -- the ratio is not a square: g = i or g = -i
    have hfac : (g - sqrtM1) * (g + sqrtM1) = 0 := by
      rw [hchi] at hg2
      linear_combination hg2 - sqrtM1_mul_self
    have hnonsq : ∀ x : F, x * x * v ≠ u := by
      intro x hcon
      have hx : x ≠ 0 := by
        intro h0
        rw [h0, zero_mul, zero_mul] at hcon
        exact hu hcon.symm
      have hsq : (x * v ^ 4) * (x * v ^ 4) = u * v ^ 7 := by
        linear_combination v ^ 7 * hcon
      exact not_sq_of_chi_neg_one _ hchi _ hsq
    rcases mul_eq_zero.mp hfac with hcg | hcg
    · -- g = i : check = u * i
      have hcg' : g = sqrtM1 := by linear_combination hcg
      have hC : R * R * v = u * sqrtM1 := by rw [hg, hcg']
      rw [show out = (FeEqual (R * R * v) u ||| FeEqual (R * R * v) (-u),
        FeAbs (FeSelect (R * sqrtM1) R
          (FeEqual (R * R * v) (-u) ||| FeEqual (R * R * v) ((-u) * sqrtM1)))) from rfl, hC]
      have hne5 : u * sqrtM1 ≠ u := by
        intro h
        have h2 : u * (sqrtM1 - 1) = 0 := by linear_combination h
        rcases mul_eq_zero.mp h2 with h3 | h3
        · exact hu h3
        · exact sqrtM1_ne_one (by linear_combination h3)
      have hne6 : u * sqrtM1 ≠ -u := by
        intro h
        have h2 : u * (sqrtM1 + 1) = 0 := by linear_combination h
        rcases mul_eq_zero.mp h2 with h3 | h3
        · exact hu h3
        · exact sqrtM1_ne_neg_one (by linear_combination h3)
      have hne7 : u * sqrtM1 ≠ (-u) * sqrtM1 := by
        intro h
        have h2 : (2 : F) * (u * sqrtM1) = 0 := by linear_combination h
        rcases mul_eq_zero.mp h2 with h3 | h3
        · exact two_ne_zero_F h3
        · exact hiu h3
      rw [FeEqual_of_ne hne5, FeEqual_of_ne hne6, FeEqual_of_ne hne7, lor_zero_zero]
      refine ⟨Or.inr rfl, FeIsNegative_FeAbs _, fun hcon => by simp at hcon,
        fun _ => ⟨?_, hnonsq⟩⟩
      rw [FeSelect, if_neg (by omega : ¬(0 : ℕ) = 1), FeAbs_mul_self, hC]
      ring
    · -- g = -i : check = (-u) * i
      have hcg' : g = -sqrtM1 := by linear_combination hcg
      have hC : R * R * v = (-u) * sqrtM1 := by rw [hg, hcg']; ring
      rw [show out = (FeEqual (R * R * v) u ||| FeEqual (R * R * v) (-u),
        FeAbs (FeSelect (R * sqrtM1) R
          (FeEqual (R * R * v) (-u) ||| FeEqual (R * R * v) ((-u) * sqrtM1)))) from rfl, hC]
      have hne8 : (-u) * sqrtM1 ≠ u := by
        intro h
        have h2 : u * (sqrtM1 + 1) = 0 := by linear_combination -h
        rcases mul_eq_zero.mp h2 with h3 | h3
        · exact hu h3
        · exact sqrtM1_ne_neg_one (by linear_combination h3)
      have hne9 : (-u) * sqrtM1 ≠ -u := by
        intro h
        have h2 : u * (sqrtM1 - 1) = 0 := by linear_combination -h
        rcases mul_eq_zero.mp h2 with h3 | h3
        · exact hu h3
        · exact sqrtM1_ne_one (by linear_combination h3)
      rw [FeEqual_of_ne hne8, FeEqual_of_ne hne9, FeEqual_of_eq rfl,
        lor_zero_zero, lor_zero_one]
      refine ⟨Or.inr rfl, FeIsNegative_FeAbs _, fun hcon => by simp at hcon,
        fun _ => ⟨?_, hnonsq⟩⟩
      rw [FeSelect, if_pos rfl, FeAbs_mul_self]
      have h10 : R * sqrtM1 * (R * sqrtM1) * v = (R * R * v) * (sqrtM1 * sqrtM1) := by ring
      rw [h10, hC, sqrtM1_mul_self]
      ring
-- batch 6: feSqrtRatio edge cases and main specification
theorem feSqrtRatio_u_zero (v : F) : feSqrtRatio 0 v = (1, 0) := by
  have h1 : FeEqual (0 : F) 0 = 1 := FeEqual_of_eq rfl
  simp [feSqrtRatio, h1, FeSelect, FeAbs_zero, lor_one_one]

theorem feSqrtRatio_v_zero (u : F) (hu : u ≠ 0) : feSqrtRatio u 0 = (0, 0) := by
  have h1 : FeEqual (0 : F) u = 0 := FeEqual_of_ne (Ne.symm hu)
  have h2 : FeEqual (0 : F) (-u) = 0 := FeEqual_of_ne (Ne.symm (neg_ne_zero.mpr hu))
  have h3 : FeEqual (0 : F) ((-u) * sqrtM1) = 0 :=
    FeEqual_of_ne (Ne.symm (mul_ne_zero (neg_ne_zero.mpr hu) sqrtM1_ne_zero))
  simp [feSqrtRatio, h1, h2, h3, FeSelect, FeAbs_zero, lor_zero_zero]

theorem feSqrtRatio_main (u v : F) (hv : v ≠ 0) :
    ((feSqrtRatio u v).1 = 1 ∨ (feSqrtRatio u v).1 = 0) ∧
    FeIsNegative (feSqrtRatio u v).2 = 0 ∧
    ((feSqrtRatio u v).1 = 1 → (feSqrtRatio u v).2 * (feSqrtRatio u v).2 * v = u) ∧
    ((feSqrtRatio u v).1 = 0 →
      (feSqrtRatio u v).2 * (feSqrtRatio u v).2 * v = sqrtM1 * u ∧ ∀ x : F, x * x * v ≠ u) := by
  by_cases hu : u = 0
  · subst hu
    rw [feSqrtRatio_u_zero]
    exact ⟨Or.inl rfl, FeIsNegative_zero, fun _ => by simp,
      fun h => absurd h (by norm_num)⟩
  · set R := (u * ((v * v) * v)) * fePow22523 (u * ((((v * v) * v) * ((v * v) * v)) * v)) with hR
    have hg : R * R * v = u * (u * v ^ 7) ^ ((p - 1) / 4) := by
      rw [hR, fePow22523_eq]
      rw [show ((p - 1) / 4 : ℕ) = 2 * (2 ^ 252 - 3) + 1 by norm_num [p]]
      ring
    have heq : feSqrtRatio u v =
        (FeEqual (R * R * v) u ||| FeEqual (R * R * v) (-u),
          FeAbs (FeSelect (R * sqrtM1) R
            (FeEqual (R * R * v) (-u) ||| FeEqual (R * R * v) ((-u) * sqrtM1)))) := rfl
    rw [heq]
    exact sqrtRatio_post u v R hv hu hg
-- batch 7: claim theorems C1, C5, C6, C9
/-- C1: for all field elements u, v with v ≠ 0, FeSqrtRatio(u, v) returns a flag
wasSquare ∈ {0,1} and a field element r such that: when wasSquare = 1, r²·v = u
and r is the nonnegative representative (FeIsNegative r = 0 under the
low-bit-of-canonical-encoding sign convention); when wasSquare = 0, u/v has no
square root and r is the nonnegative representative of √(i·u/v), i.e. r²·v = i·u
with i the fixed square root of -1. -/
theorem C1_feSqrtRatio_spec (u v : F) (hv : v ≠ 0) :
    ((feSqrtRatio u v).1 = 1 ∨ (feSqrtRatio u v).1 = 0) ∧
    ((feSqrtRatio u v).1 = 1 →
      (feSqrtRatio u v).2 * (feSqrtRatio u v).2 * v = u ∧
      FeIsNegative (feSqrtRatio u v).2 = 0) ∧
    ((feSqrtRatio u v).1 = 0 →
      (∀ x : F, x * x * v ≠ u) ∧
      (feSqrtRatio u v).2 * (feSqrtRatio u v).2 * v = sqrtM1 * u ∧
      FeIsNegative (feSqrtRatio u v).2 = 0) := by
  obtain ⟨h1, h2, h3, h4⟩ := feSqrtRatio_main u v hv
  exact ⟨h1, fun h => ⟨h3 h, h2⟩, fun h => ⟨(h4 h).2, (h4 h).1, h2⟩⟩

/-- Witness for C1 at the concrete input u = 1, v = 1. -/
theorem C1_feSqrtRatio_spec_witness :
    (1 : F) ≠ 0 ∧
    (((feSqrtRatio 1 1).1 = 1 ∨ (feSqrtRatio 1 1).1 = 0) ∧
    ((feSqrtRatio 1 1).1 = 1 →
      (feSqrtRatio 1 1).2 * (feSqrtRatio 1 1).2 * 1 = 1 ∧
      FeIsNegative (feSqrtRatio 1 1).2 = 0) ∧
    ((feSqrtRatio 1 1).1 = 0 →
      (∀ x : F, x * x * 1 ≠ 1) ∧
      (feSqrtRatio 1 1).2 * (feSqrtRatio 1 1).2 * 1 = sqrtM1 * 1 ∧
      FeIsNegative (feSqrtRatio 1 1).2 = 0)) :=
  ⟨one_ne_zero, C1_feSqrtRatio_spec 1 1 one_ne_zero⟩

/-- C5: the fixed exponentiation routine fePow22523 computes z^((p-5)/8) for
p = 2^255 - 19, by the data-independent addition chain with
consecutive-squaring run lengths 1, 2, 1, 5, 10, 20, 10, 50, 100, 50, 2
transcribed in its definition. -/
theorem C5_fePow22523_spec (z : F) : fePow22523 z = z ^ ((p - 5) / 8) := by
  rw [show ((p - 5) / 8 : ℕ) = 2 ^ 252 - 3 by norm_num [p]]
  exact fePow22523_eq z

/-- C6: for every v ≠ 0 and every nonnegative r, FeSqrtRatio(r²·v, v) returns
wasSquare = 1 together with exactly the field element r. -/
theorem C6_sqrtRatio_roundtrip (v r : F) (hv : v ≠ 0) (hr : FeIsNegative r = 0) :
    feSqrtRatio (r * r * v) v = (1, r) := by
  obtain ⟨h1, h2, h3, h4⟩ := feSqrtRatio_main (r * r * v) v hv
  have hws : (feSqrtRatio (r * r * v) v).1 = 1 := by
    rcases h1 with h | h
    · exact h
    · exact absurd rfl ((h4 h).2 r)
  have hval := h3 hws
  have hsq : (feSqrtRatio (r * r * v) v).2 * (feSqrtRatio (r * r * v) v).2 = r * r :=
    mul_right_cancel₀ hv hval
  have hres := nonneg_sq_unique _ r h2 hr hsq
  have hpair : feSqrtRatio (r * r * v) v =
      ((feSqrtRatio (r * r * v) v).1, (feSqrtRatio (r * r * v) v).2) := rfl
  rw [hpair, hws, hres]

/-- Witness for C6 at the concrete input v = 1, r = 0. -/
theorem C6_sqrtRatio_roundtrip_witness :
    (1 : F) ≠ 0 ∧ FeIsNegative (0 : F) = 0 ∧ feSqrtRatio ((0 : F) * 0 * 1) 1 = (1, 0) :=
  ⟨one_ne_zero, FeIsNegative_zero, C6_sqrtRatio_roundtrip 1 0 one_ne_zero FeIsNegative_zero⟩

/-- C9: for every field element v, FeSqrtRatio(0, v) returns wasSquare = 1 and
r = 0: a zero numerator is always reported as a square with the zero root. -/
theorem C9_feSqrtRatio_zero (v : F) : feSqrtRatio 0 v = (1, 0) :=
  feSqrtRatio_u_zero v
-- batch 8: the Elligator map lands on the curve
theorem onCurve_of_proj (P : ExtendedGroupElement) (hZ : P.Z ≠ 0)
    (h : (-(P.X * P.X) + P.Y * P.Y) * (P.Z * P.Z) =
      P.Z * P.Z * (P.Z * P.Z) + dConst * (P.X * P.X) * (P.Y * P.Y)) :
    onCurve P := by
  refine ⟨hZ, ?_⟩
  rw [affX, affY]
  field_simp
  linear_combination h

theorem onCurve_proj (P : ExtendedGroupElement) (h : onCurve P) :
    (-(P.X * P.X) + P.Y * P.Y) * (P.Z * P.Z) =
      P.Z * P.Z * (P.Z * P.Z) + dConst * (P.X * P.X) * (P.Y * P.Y) := by
  obtain ⟨hZ, hc⟩ := h
  rw [affX, affY] at hc
  field_simp at hc
  linear_combination hc

theorem elligator_point_onCurve (s v N : F) (hN : N ≠ 0) (hw3 : 1 + s * s ≠ 0)
    (hkey : v * v * ((1 + s * s) * (1 + s * s) + dConst * ((1 - s * s) * (1 - s * s))) =
      (dConst + 1) * (N * N)) :
    onCurve ⟨(s * v + s * v) * (1 + s * s), (1 - s * s) * (N * sqrtADMinusOne),
      (N * sqrtADMinusOne) * (1 + s * s), (s * v + s * v) * (1 - s * s)⟩ := by
  apply onCurve_of_proj
  · show (N * sqrtADMinusOne) * (1 + s * s) ≠ 0
    exact mul_ne_zero (mul_ne_zero hN sqrtADMinusOne_ne_zero) hw3
  · dsimp only
    have hA := sqrtADMinusOne_spec
    have h0 : v * v * ((1 + s * s) * (1 + s * s) + dConst * ((1 - s * s) * (1 - s * s))) +
        (N * N) * (sqrtADMinusOne * sqrtADMinusOne) = 0 := by
      linear_combination hkey + (N * N) * hA
    linear_combination (-(4 : F) * (s * s) * (N * N) * (sqrtADMinusOne * sqrtADMinusOne) *
      ((1 + s * s) * (1 + s * s))) * h0

theorem N_ne_zero_of_key (s v N : F) (hv : v ≠ 0)
    (hkey : v * v * ((1 + s * s) * (1 + s * s) + dConst * ((1 - s * s) * (1 - s * s))) =
      (dConst + 1) * (N * N)) :
    N ≠ 0 := by
  intro h0
  rw [h0] at hkey
  have hvvQ : v * v * ((1 + s * s) * (1 + s * s) + dConst * ((1 - s * s) * (1 - s * s))) = 0 := by
    rw [hkey]; ring
  have hQ : (1 + s * s) * (1 + s * s) + dConst * ((1 - s * s) * (1 - s * s)) = 0 := by
    rcases mul_eq_zero.mp hvvQ with h | h
    · rcases mul_eq_zero.mp h with h2 | h2 <;> exact absurd h2 hv
    · exact h
  by_cases h1 : 1 - s * s = 0
  · have hs2 : s * s = 1 := by linear_combination -h1
    rw [hs2] at hQ
    have h4 : (2 : F) * 2 = 0 := by linear_combination hQ
    rcases mul_eq_zero.mp h4 with h | h <;> exact two_ne_zero_F h
  · exact sq_eq_neg_d_contra (1 + s * s) (1 - s * s) h1 (by linear_combination hQ)

theorem elligator_valid (t r u v s c N : F) (sr : ℕ × F)
    (hr : r = t * t * sqrtM1)
    (hu : u = (r + 1) * oneMinusDSQ)
    (hv : v = (-1 - r * dConst) * (r + dConst))
    (hsr : sr = feSqrtRatio u v)
    (hs : s = FeSelect sr.2 (-(FeAbs (sr.2 * t))) sr.1)
    (hc : c = FeSelect (-1) r sr.1)
    (hN : N = ((r - 1) * c) * dMinusOneSQ - v) :
    onCurve ⟨(s * v + s * v) * (1 + s * s), (1 - s * s) * (N * sqrtADMinusOne),
      (N * sqrtADMinusOne) * (1 + s * s), (s * v + s * v) * (1 - s * s)⟩ := by
  by_cases hv0 : v = 0
  · -- degenerate denominator: the output denotes the affine point (0, 1)
    have hu0 : u ≠ 0 := by
      rw [hu]
      intro hcon
      rcases mul_eq_zero.mp hcon with h | h
      · have hr1 : r = -1 := by linear_combination h
        rw [hv, hr1] at hv0
        rcases mul_eq_zero.mp hv0 with h2 | h2
        · exact dConst_ne_one (by linear_combination h2)
        · exact dConst_ne_one (by linear_combination h2)
      · exact oneMinusDSQ_ne_zero h
    have hsr0 : sr = (0, 0) := by rw [hsr, hv0]; exact feSqrtRatio_v_zero u hu0
    have hs0 : s = 0 := by
      rw [hs, hsr0]
      simp [FeSelect, FeAbs_zero]
    have hc0 : c = r := by
      rw [hc, hsr0]
      simp [FeSelect]
    have hrn : r ≠ 0 ∧ r ≠ 1 := by
      rw [hv] at hv0
      rcases mul_eq_zero.mp hv0 with h | h
      · have hrd : r * dConst = -1 := by linear_combination -h
        constructor
        · intro h0
          rw [h0, zero_mul] at hrd
          exact one_ne_zero (show (1 : F) = 0 by linear_combination hrd)
        · intro h1
          rw [h1, one_mul] at hrd
          exact dConst_add_one_ne_zero (by linear_combination hrd)
      · have hrd : r = -dConst := by linear_combination h
        constructor
        · intro h0
          rw [h0] at hrd
          exact dConst_ne_zero (by linear_combination hrd)
        · intro h1
          rw [h1] at hrd
          exact dConst_add_one_ne_zero (by linear_combination hrd)
    have hNne : N ≠ 0 := by
      rw [hN, hc0, hv0, sub_zero, dMinusOneSQ_spec]
      intro hcon
      rcases mul_eq_zero.mp hcon with h | h
      · rcases mul_eq_zero.mp h with h2 | h2
        · exact hrn.2 (by linear_combination h2)
        · exact hrn.1 h2
      · rcases mul_eq_zero.mp h with h2 | h2 <;>
          exact dConst_ne_one (by linear_combination h2)
    rw [hs0, hv0]
    apply onCurve_of_proj
    · show (N * sqrtADMinusOne) * (1 + (0 : F) * 0) ≠ 0
      have h1 : (1 : F) + 0 * 0 ≠ 0 := by norm_num
      exact mul_ne_zero (mul_ne_zero hNne sqrtADMinusOne_ne_zero) h1
    · dsimp only
      ring
  · -- main branches of the solver
    obtain ⟨hws, hneg, hsq1, hsq0⟩ := feSqrtRatio_main u v hv0
    rw [← hsr] at hws hsq1 hsq0
    rcases hws with hws | hws
    · -- wasSquare = 1 : s is the returned nonnegative root, c = -1
      have hsel : s = sr.2 := by rw [hs, hws, FeSelect, if_pos rfl]
      have hssv : s * s * v = u := by rw [hsel]; exact hsq1 hws
      have hw3 : 1 + s * s ≠ 0 := by
        intro hcon
        apply u_add_v_ne_zero r
        rw [← hu, ← hv]
        linear_combination (-1 : F) * hssv + v * hcon
      have hNval : N = ((r - 1) * (-1)) * dMinusOneSQ - v := by
        rw [hN, hc, hws, FeSelect, if_pos rfl]
      have hid : (v + u) * (v + u) + dConst * ((v - u) * (v - u)) = (dConst + 1) * (N * N) := by
        rw [hNval, hu, hv, dMinusOneSQ_spec, oneMinusDSQ_spec]
        ring
      have hkey : v * v * ((1 + s * s) * (1 + s * s) + dConst * ((1 - s * s) * (1 - s * s))) =
          (dConst + 1) * (N * N) := by
        linear_combination hid +
          (2 * v + s * s * v + u - dConst * (2 * v - s * s * v - u)) * hssv
      exact elligator_point_onCurve s v N (N_ne_zero_of_key s v N hv0 hkey) hw3 hkey
    · -- wasSquare = 0 : s = -|s0·t|, c = r
      have hsel : s = -(FeAbs (sr.2 * t)) := by
        rw [hs, hws, FeSelect, if_neg (by omega : ¬(0 : ℕ) = 1)]
      have hss : s * s = (sr.2 * t) * (sr.2 * t) := by
        rw [hsel, neg_mul_neg]
        exact FeAbs_mul_self _
      obtain ⟨hiu, hnex⟩ := hsq0 hws
      have hssv : s * s * v = u * r := by
        rw [hss]
        linear_combination (t * t) * hiu + (-u) * hr
      have hw3 : 1 + s * s ≠ 0 := by
        intro hcon
        apply v_add_u_mul_r_ne_zero r
        rw [← hu, ← hv]
        linear_combination (-1 : F) * hssv + v * hcon
      have hNval : N = ((r - 1) * r) * dMinusOneSQ - v := by
        rw [hN, hc, hws, FeSelect, if_neg (by omega : ¬(0 : ℕ) = 1)]
      have hid : (v + u * r) * (v + u * r) + dConst * ((v - u * r) * (v - u * r)) =
          (dConst + 1) * (N * N) := by
        rw [hNval, hu, hv, dMinusOneSQ_spec, oneMinusDSQ_spec]
        ring
      have hkey : v * v * ((1 + s * s) * (1 + s * s) + dConst * ((1 - s * s) * (1 - s * s))) =
          (dConst + 1) * (N * N) := by
        linear_combination hid +
          (2 * v + s * s * v + u * r - dConst * (2 * v - s * s * v - u * r)) * hssv
      exact elligator_point_onCurve s v N (N_ne_zero_of_key s v N hv0 hkey) hw3 hkey

theorem mapToPoint_valid (t : F) : onCurve (mapToPoint t) :=
  elligator_valid t _ _ _ _ _ _ _ rfl rfl rfl rfl rfl rfl rfl
-- batch 9: extended-coordinate invariant and the 2-to-1 symmetry of the map
theorem em_mk_XY_ZT (w0 w1 w2 w3 : F) :
    (ExtendedGroupElement.mk (w0 * w3) (w2 * w1) (w1 * w3) (w0 * w2)).X *
      (ExtendedGroupElement.mk (w0 * w3) (w2 * w1) (w1 * w3) (w0 * w2)).Y =
    (ExtendedGroupElement.mk (w0 * w3) (w2 * w1) (w1 * w3) (w0 * w2)).Z *
      (ExtendedGroupElement.mk (w0 * w3) (w2 * w1) (w1 * w3) (w0 * w2)).T := by
  dsimp only
  ring

theorem mapToPoint_xy_zt (t : F) :
    (mapToPoint t).X * (mapToPoint t).Y = (mapToPoint t).Z * (mapToPoint t).T :=
  em_mk_XY_ZT _ _ _ _

theorem mapToPoint_neg (t : F) : mapToPoint (-t) = mapToPoint t := by
  simp only [mapToPoint]
  rw [show -t * -t = t * t from by ring]
  rw [show ∀ x : F, x * -t = -(x * t) from fun x => by ring]
  rw [FeAbs_neg]

/-- C8: for every input field element t, the extended coordinates produced by
the Elligator map satisfy the extended twisted-Edwards invariant X·Y = Z·T. -/
theorem C8_mapToPoint_invariant (t : F) :
    (mapToPoint t).X * (mapToPoint t).Y = (mapToPoint t).Z * (mapToPoint t).T :=
  mapToPoint_xy_zt t

/-- C10: for every field element t, mapToPoint(-t) and mapToPoint(t) produce
identical extended coordinates, coordinate for coordinate: the Elligator map
identifies each input with its field negation. -/
theorem C10_mapToPoint_even (t : F) : mapToPoint (-t) = mapToPoint t :=
  mapToPoint_neg t
-- batch 10: completeness of the addition law on this curve
theorem edwards_complete (x1 y1 x2 y2 e : F)
    (h1 : -(x1 * x1) + y1 * y1 = 1 + dConst * (x1 * x1) * (y1 * y1))
    (h2 : -(x2 * x2) + y2 * y2 = 1 + dConst * (x2 * x2) * (y2 * y2))
    (he : e * e = 1) :
    dConst * x1 * x2 * y1 * y2 ≠ e := by
  intro hcon
  have he0 : e ≠ 0 := by
    intro h0
    rw [h0, mul_zero] at he
    exact one_ne_zero he.symm
  have hx1 : x1 ≠ 0 := by
    intro h0; rw [h0] at hcon; exact he0 (by linear_combination -hcon)
  have hy1 : y1 ≠ 0 := by
    intro h0; rw [h0] at hcon; exact he0 (by linear_combination -hcon)
  have hx2 : x2 ≠ 0 := by
    intro h0; rw [h0] at hcon; exact he0 (by linear_combination -hcon)
  have step1 : dConst * (x1 * x1) * (y1 * y1) * (y2 * y2 - x2 * x2) = y1 * y1 - x1 * x1 := by
    linear_combination (dConst * (x1 * x1) * (y1 * y1)) * h2 - h1 +
      (dConst * x1 * x2 * y1 * y2 + e) * hcon + he
  by_cases hY : y2 + sqrtM1 * x2 = 0
  · -- the mirrored identity, with y2 - i·x2 ≠ 0
    have hY2 : y2 - sqrtM1 * x2 ≠ 0 := by
      intro h0
      have h2y : (2 : F) * y2 = 0 := by linear_combination hY + h0
      rcases mul_eq_zero.mp h2y with h | h
      · exact two_ne_zero_F h
      · rw [h] at hY
        have hix : sqrtM1 * x2 = 0 := by linear_combination hY
        rcases mul_eq_zero.mp hix with h3 | h3
        · exact sqrtM1_ne_zero h3
        · exact hx2 h3
    have step2 : (y1 - e * sqrtM1 * x1) * (y1 - e * sqrtM1 * x1) =
        dConst * ((x1 * y1 * (y2 - sqrtM1 * x2)) * (x1 * y1 * (y2 - sqrtM1 * x2))) := by
      linear_combination (-1 : F) * step1 + 2 * sqrtM1 * x1 * y1 * hcon +
        (x1 * x1 * (sqrtM1 * sqrtM1)) * he +
        (x1 * x1 - dConst * (x1 * x1) * (y1 * y1) * (x2 * x2)) * sqrtM1_mul_self
    have hden : x1 * y1 * (y2 - sqrtM1 * x2) ≠ 0 :=
      mul_ne_zero (mul_ne_zero hx1 hy1) hY2
    refine not_sq_of_chi_neg_one dConst chi_dConst
      ((y1 - e * sqrtM1 * x1) * (x1 * y1 * (y2 - sqrtM1 * x2))⁻¹) ?_
    field_simp
    linear_combination step2
  · have step2 : (y1 + e * sqrtM1 * x1) * (y1 + e * sqrtM1 * x1) =
        dConst * ((x1 * y1 * (y2 + sqrtM1 * x2)) * (x1 * y1 * (y2 + sqrtM1 * x2))) := by
      linear_combination (-1 : F) * step1 - 2 * sqrtM1 * x1 * y1 * hcon +
        (x1 * x1 * (sqrtM1 * sqrtM1)) * he +
        (x1 * x1 - dConst * (x1 * x1) * (y1 * y1) * (x2 * x2)) * sqrtM1_mul_self
    have hden : x1 * y1 * (y2 + sqrtM1 * x2) ≠ 0 :=
      mul_ne_zero (mul_ne_zero hx1 hy1) hY
    refine not_sq_of_chi_neg_one dConst chi_dConst
      ((y1 + e * sqrtM1 * x1) * (x1 * y1 * (y2 + sqrtM1 * x2))⁻¹) ?_
    field_simp
    linear_combination step2

theorem EH_exclusion (x1 y1 x2 y2 : F)
    (h1 : -(x1 * x1) + y1 * y1 = 1 + dConst * (x1 * x1) * (y1 * y1))
    (h2 : -(x2 * x2) + y2 * y2 = 1 + dConst * (x2 * x2) * (y2 * y2))
    (hE : x1 * y2 + y1 * x2 = 0) (hH : y1 * y2 + x1 * x2 = 0) : False := by
  have hA : (y1 - x1) * (y2 - x2) = 0 := by linear_combination hH - hE
  rcases mul_eq_zero.mp hA with ha | ha
  · have hy : y1 = x1 := by linear_combination ha
    rw [hy] at h1
    have hc : 1 + dConst * (x1 * x1) * (x1 * x1) = 0 := by linear_combination -h1
    exact sq_eq_neg_d_contra (dConst * (x1 * x1)) 1 one_ne_zero
      (by linear_combination dConst * hc)
  · have hy : y2 = x2 := by linear_combination ha
    rw [hy] at h2
    have hc : 1 + dConst * (x2 * x2) * (x2 * x2) = 0 := by linear_combination -h2
    exact sq_eq_neg_d_contra (dConst * (x2 * x2)) 1 one_ne_zero
      (by linear_combination dConst * hc)

theorem affX_spec (P : ExtendedGroupElement) (hZ : P.Z ≠ 0) : P.X = affX P * P.Z := by
  rw [affX]
  field_simp

theorem affY_spec (P : ExtendedGroupElement) (hZ : P.Z ≠ 0) : P.Y = affY P * P.Z := by
  rw [affY]
  field_simp

theorem affT_spec (P : ExtendedGroupElement) (hZ : P.Z ≠ 0)
    (hT : P.X * P.Y = P.Z * P.T) : P.T = (affX P * affY P) * P.Z := by
  have h := hT
  rw [affX_spec P hZ, affY_spec P hZ] at h
  have h2 : P.Z * ((affX P * affY P) * P.Z) = P.Z * P.T := by linear_combination h
  exact (mul_left_cancel₀ hZ h2).symm

theorem onCurve_affine_mul (P : ExtendedGroupElement) (h : onCurve P) :
    -(affX P * affX P) + affY P * affY P =
      1 + dConst * (affX P * affX P) * (affY P * affY P) := by
  linear_combination h.2

theorem geAdd_eq (q1 q2 : ExtendedGroupElement) :
    geAdd q1 q2 =
      ⟨((q1.Y + q1.X) * (q2.Y + q2.X) - (q1.Y - q1.X) * (q2.Y - q2.X)) *
          ((2 : F) * q1.Z * q2.Z - ((2 : F) * dConst * q1.T) * q2.T),
        ((2 : F) * q1.Z * q2.Z + ((2 : F) * dConst * q1.T) * q2.T) *
          ((q1.Y + q1.X) * (q2.Y + q2.X) + (q1.Y - q1.X) * (q2.Y - q2.X)),
        ((2 : F) * q1.Z * q2.Z - ((2 : F) * dConst * q1.T) * q2.T) *
          ((2 : F) * q1.Z * q2.Z + ((2 : F) * dConst * q1.T) * q2.T),
        ((q1.Y + q1.X) * (q2.Y + q2.X) - (q1.Y - q1.X) * (q2.Y - q2.X)) *
          ((q1.Y + q1.X) * (q2.Y + q2.X) + (q1.Y - q1.X) * (q2.Y - q2.X))⟩ := rfl

theorem geAdd_XY_ne_zero (P Q : ExtendedGroupElement)
    (hP : onCurve P) (hQ : onCurve Q)
    (hTP : P.X * P.Y = P.Z * P.T) (hTQ : Q.X * Q.Y = Q.Z * Q.T) :
    ¬((geAdd P Q).X = 0 ∧ (geAdd P Q).Y = 0) := by
  rintro ⟨hX, hY⟩
  have hZP := hP.1
  have hZQ := hQ.1
  have h1 := onCurve_affine_mul P hP
  have h2 := onCurve_affine_mul Q hQ
  have hT1 := affT_spec P hZP hTP
  have hT2 := affT_spec Q hZQ hTQ
  have hx1 := affX_spec P hZP
  have hy1 := affY_spec P hZP
  have hx2 := affX_spec Q hZQ
  have hy2 := affY_spec Q hZQ
  rw [geAdd_eq] at hX hY
  dsimp only at hX hY
  -- the denominators are nonzero by completeness
  have hFfac : (2 : F) * P.Z * Q.Z - ((2 : F) * dConst * P.T) * Q.T =
      ((2 : F) * (P.Z * Q.Z)) * (1 - dConst * affX P * affX Q * affY P * affY Q) := by
    rw [hT1, hT2]
    ring
  have hGfac : (2 : F) * P.Z * Q.Z + ((2 : F) * dConst * P.T) * Q.T =
      ((2 : F) * (P.Z * Q.Z)) * (1 + dConst * affX P * affX Q * affY P * affY Q) := by
    rw [hT1, hT2]
    ring
  have hFne : (2 : F) * P.Z * Q.Z - ((2 : F) * dConst * P.T) * Q.T ≠ 0 := by
    rw [hFfac]
    refine mul_ne_zero (mul_ne_zero two_ne_zero_F (mul_ne_zero hZP hZQ)) ?_
    intro h0
    exact edwards_complete (affX P) (affY P) (affX Q) (affY Q) 1 h1 h2 (by ring)
      (by linear_combination -h0)
  have hGne : (2 : F) * P.Z * Q.Z + ((2 : F) * dConst * P.T) * Q.T ≠ 0 := by
    rw [hGfac]
    refine mul_ne_zero (mul_ne_zero two_ne_zero_F (mul_ne_zero hZP hZQ)) ?_
    intro h0
    exact edwards_complete (affX P) (affY P) (affX Q) (affY Q) (-1) h1 h2 (by ring)
      (by linear_combination h0)
  have hE0 : (P.Y + P.X) * (Q.Y + Q.X) - (P.Y - P.X) * (Q.Y - Q.X) = 0 := by
    rcases mul_eq_zero.mp hX with h | h
    · exact h
    · exact absurd h hFne
  have hH0 : (P.Y + P.X) * (Q.Y + Q.X) + (P.Y - P.X) * (Q.Y - Q.X) = 0 := by
    rcases mul_eq_zero.mp hY with h | h
    · exact absurd h hGne
    · exact h
  rw [hx1, hy1, hx2, hy2] at hE0 hH0
  have hE1 : ((2 : F) * (P.Z * Q.Z)) * (affX P * affY Q + affY P * affX Q) = 0 := by
    linear_combination hE0
  have hH1 : ((2 : F) * (P.Z * Q.Z)) * (affY P * affY Q + affX P * affX Q) = 0 := by
    linear_combination hH0
  have hzz : (2 : F) * (P.Z * Q.Z) ≠ 0 := mul_ne_zero two_ne_zero_F (mul_ne_zero hZP hZQ)
  have hE2 : affX P * affY Q + affY P * affX Q = 0 := by
    rcases mul_eq_zero.mp hE1 with h | h
    · exact absurd h hzz
    · exact h
  have hH2 : affY P * affY Q + affX P * affX Q = 0 := by
    rcases mul_eq_zero.mp hH1 with h | h
    · exact absurd h hzz
    · exact h
  exact EH_exclusion (affX P) (affY P) (affX Q) (affY Q) h1 h2 hE2 hH2
-- batch 11: hash-to-group representation and the equality test's structure
theorem fromUniform_repr (e : Element) (he : isFromUniform e) :
    ∃ t1 t2 : F, e.r = geAdd (mapToPoint t1) (mapToPoint t2) := by
  obtain ⟨b, e0, hlen, heq⟩ := he
  refine ⟨FeFromBytes (b.take 32), FeFromBytes (b.drop 32), ?_⟩
  rw [Element.FromUniformBytes, if_pos hlen] at heq
  have h := congrArg Prod.fst heq
  dsimp only at h
  rw [← h]

theorem fromUniform_XY_ne_zero (e : Element) (he : isFromUniform e) :
    ¬(e.r.X = 0 ∧ e.r.Y = 0) := by
  obtain ⟨t1, t2, hrepr⟩ := fromUniform_repr e he
  rw [hrepr]
  exact geAdd_XY_ne_zero _ _ (mapToPoint_valid t1) (mapToPoint_valid t2)
    (mapToPoint_xy_zt t1) (mapToPoint_xy_zt t2)

theorem FeEqual_zero_or_one (a b : F) : FeEqual a b = 0 ∨ FeEqual a b = 1 := by
  rw [FeEqual]
  by_cases h : feToBytes a = feToBytes b
  · right; rw [if_pos h]
  · left; rw [if_neg h]

theorem FeEqual_symm (a b : F) : FeEqual a b = FeEqual b a := by
  rw [FeEqual, FeEqual]
  by_cases h : feToBytes a = feToBytes b
  · rw [if_pos h, if_pos h.symm]
  · rw [if_neg h, if_neg (fun h2 => h h2.symm)]

theorem lor_eq_one_cases (x y : ℕ) (hx : x = 0 ∨ x = 1) (hy : y = 0 ∨ y = 1) :
    (x ||| y = 1 ↔ (x = 1 ∨ y = 1)) := by
  rcases hx with h | h <;> rcases hy with h2 | h2 <;> subst h <;> subst h2 <;> simp

theorem equal_one_iff (e1 e2 : Element) :
    e1.Equal e2 = 1 ↔
      (e1.r.X * e2.r.Y = e1.r.Y * e2.r.X ∨ e1.r.Y * e2.r.Y = e1.r.X * e2.r.X) := by
  rw [Element.Equal]
  rw [lor_eq_one_cases _ _ (FeEqual_zero_or_one _ _) (FeEqual_zero_or_one _ _),
    FeEqual_eq_one_iff, FeEqual_eq_one_iff]

theorem prop_of_cross (a b cc dd : F) (h : a * dd = b * cc) (hne : ¬(cc = 0 ∧ dd = 0)) :
    ∃ l : F, a = l * cc ∧ b = l * dd := by
  by_cases hc : cc = 0
  · have hd : dd ≠ 0 := fun h0 => hne ⟨hc, h0⟩
    have ha : a = 0 := by
      have h2 : a * dd = 0 := by rw [h, hc, mul_zero]
      rcases mul_eq_zero.mp h2 with h3 | h3
      · exact h3
      · exact absurd h3 hd
    refine ⟨b * dd⁻¹, by rw [ha, hc, mul_zero], ?_⟩
    field_simp
  · refine ⟨a * cc⁻¹, by field_simp, ?_⟩
    field_simp
    linear_combination -h

theorem cross_trans (a1 b1 a2 b2 a3 b3 : F) (hmid : ¬(a2 = 0 ∧ b2 = 0))
    (h12 : a1 * b2 = b1 * a2 ∨ b1 * b2 = a1 * a2)
    (h23 : a2 * b3 = b2 * a3 ∨ b2 * b3 = a2 * a3) :
    a1 * b3 = b1 * a3 ∨ b1 * b3 = a1 * a3 := by
  have hmid' : ¬(b2 = 0 ∧ a2 = 0) := fun h => hmid ⟨h.2, h.1⟩
  rcases h12 with h12 | h12 <;> rcases h23 with h23 | h23
  · obtain ⟨l, hl1, hl2⟩ := prop_of_cross a1 b1 a2 b2 h12 hmid
    obtain ⟨m, hm1, hm2⟩ := prop_of_cross a3 b3 a2 b2 (by linear_combination -h23) hmid
    left
    rw [hl1, hl2, hm1, hm2]
    ring
  · obtain ⟨l, hl1, hl2⟩ := prop_of_cross a1 b1 a2 b2 h12 hmid
    obtain ⟨m, hm1, hm2⟩ := prop_of_cross a3 b3 b2 a2 (by linear_combination -h23) hmid'
    right
    rw [hl1, hl2, hm1, hm2]
    ring
  · obtain ⟨l, hl1, hl2⟩ := prop_of_cross a1 b1 b2 a2 (by linear_combination -h12) hmid'
    obtain ⟨m, hm1, hm2⟩ := prop_of_cross a3 b3 a2 b2 (by linear_combination -h23) hmid
    right
    rw [hl1, hl2, hm1, hm2]
    ring
  · obtain ⟨l, hl1, hl2⟩ := prop_of_cross a1 b1 b2 a2 (by linear_combination -h12) hmid'
    obtain ⟨m, hm1, hm2⟩ := prop_of_cross a3 b3 b2 a2 (by linear_combination -h23) hmid'
    left
    rw [hl1, hl2, hm1, hm2]
    ring
-- batch 12: claim theorems C3, C4, C7
theorem isFromUniform_of_len (e0 : Element) (b : List ℕ) (hlen : b.length = 64) :
    isFromUniform (Element.FromUniformBytes e0 b).1 := by
  have h2 : (Element.FromUniformBytes e0 b).2 = true := by
    rw [Element.FromUniformBytes, if_pos hlen]
  exact ⟨b, e0, hlen, Prod.ext rfl h2⟩

/-- C3: FromUniformBytes fails (the Go code panics, embedded as the false
flag) if and only if the input is not exactly 64 bytes; on failure the
receiver is returned unchanged, and on every 64-byte input it completes and
produces a well-defined Group Element. -/
theorem C3_fromUniformBytes_length (e : Element) (b : List ℕ) :
    ((Element.FromUniformBytes e b).2 = true ↔ b.length = 64) ∧
    (b.length ≠ 64 → (Element.FromUniformBytes e b).1 = e) := by
  rw [Element.FromUniformBytes]
  by_cases h : b.length = 64
  · rw [if_pos h]
    exact ⟨⟨fun _ => h, fun _ => rfl⟩, fun hcon => absurd h hcon⟩
  · rw [if_neg h]
    refine ⟨⟨fun hcon => ?_, fun hcon => absurd hcon h⟩, fun _ => rfl⟩
    exact absurd hcon (by simp)

/-- C4: for every 64-byte input b, FromUniformBytes computes the group sum of
the two Elligator images of the field elements decoded from the two 32-byte
little-endian halves of b, the two map invocations being independent. -/
theorem C4_fromUniformBytes_structure (e : Element) (b : List ℕ) (hlen : b.length = 64) :
    Element.FromUniformBytes e b =
      (⟨geAdd (mapToPoint (FeFromBytes (b.take 32)))
          (mapToPoint (FeFromBytes (b.drop 32)))⟩, true) := by
  rw [Element.FromUniformBytes, if_pos hlen]

/-- Witness for C4 at the 64-zero-byte input. -/
theorem C4_fromUniformBytes_structure_witness :
    (List.replicate 64 (0 : ℕ)).length = 64 ∧
    Element.FromUniformBytes ⟨⟨0, 1, 1, 0⟩⟩ (List.replicate 64 (0 : ℕ)) =
      (⟨geAdd (mapToPoint (FeFromBytes ((List.replicate 64 (0 : ℕ)).take 32)))
          (mapToPoint (FeFromBytes ((List.replicate 64 (0 : ℕ)).drop 32)))⟩, true) :=
  ⟨by simp, C4_fromUniformBytes_structure ⟨⟨0, 1, 1, 0⟩⟩ _ (by simp)⟩

/-- C7: Element.Equal is an equivalence relation on the Group Elements
produced by FromUniformBytes: reflexive, symmetric (as equality of the two
results), and transitive. -/
theorem C7_equal_equivalence (e1 e2 e3 : Element)
    (h1 : isFromUniform e1) (h2 : isFromUniform e2) (h3 : isFromUniform e3) :
    e1.Equal e1 = 1 ∧
    e1.Equal e2 = e2.Equal e1 ∧
    (e1.Equal e2 = 1 → e2.Equal e3 = 1 → e1.Equal e3 = 1) := by
  refine ⟨?_, ?_, ?_⟩
  · rw [equal_one_iff]
    left
    ring
  · simp only [Element.Equal]
    rw [mul_comm e2.r.X e1.r.Y, mul_comm e2.r.Y e1.r.X, mul_comm e2.r.Y e1.r.Y,
      mul_comm e2.r.X e1.r.X, FeEqual_symm (e1.r.Y * e2.r.X) (e1.r.X * e2.r.Y)]
  · intro h12 h23
    rw [equal_one_iff] at h12 h23 ⊢
    exact cross_trans e1.r.X e1.r.Y e2.r.X e2.r.Y e3.r.X e3.r.Y
      (fromUniform_XY_ne_zero e2 h2) h12 h23

/-- Witness for C7 with all three elements obtained from the 64-zero-byte
input. -/
theorem C7_equal_equivalence_witness :
    isFromUniform (Element.FromUniformBytes ⟨⟨0, 1, 1, 0⟩⟩ (List.replicate 64 (0 : ℕ))).1 ∧
    ((Element.FromUniformBytes ⟨⟨0, 1, 1, 0⟩⟩ (List.replicate 64 (0 : ℕ))).1.Equal
        (Element.FromUniformBytes ⟨⟨0, 1, 1, 0⟩⟩ (List.replicate 64 (0 : ℕ))).1 = 1 ∧
      (Element.FromUniformBytes ⟨⟨0, 1, 1, 0⟩⟩ (List.replicate 64 (0 : ℕ))).1.Equal
          (Element.FromUniformBytes ⟨⟨0, 1, 1, 0⟩⟩ (List.replicate 64 (0 : ℕ))).1 =
        (Element.FromUniformBytes ⟨⟨0, 1, 1, 0⟩⟩ (List.replicate 64 (0 : ℕ))).1.Equal
          (Element.FromUniformBytes ⟨⟨0, 1, 1, 0⟩⟩ (List.replicate 64 (0 : ℕ))).1 ∧
      ((Element.FromUniformBytes ⟨⟨0, 1, 1, 0⟩⟩ (List.replicate 64 (0 : ℕ))).1.Equal
          (Element.FromUniformBytes ⟨⟨0, 1, 1, 0⟩⟩ (List.replicate 64 (0 : ℕ))).1 = 1 →
        (Element.FromUniformBytes ⟨⟨0, 1, 1, 0⟩⟩ (List.replicate 64 (0 : ℕ))).1.Equal
            (Element.FromUniformBytes ⟨⟨0, 1, 1, 0⟩⟩ (List.replicate 64 (0 : ℕ))).1 = 1 →
          (Element.FromUniformBytes ⟨⟨0, 1, 1, 0⟩⟩ (List.replicate 64 (0 : ℕ))).1.Equal
            (Element.FromUniformBytes ⟨⟨0, 1, 1, 0⟩⟩ (List.replicate 64 (0 : ℕ))).1 = 1)) := by
  have hiu : isFromUniform
      (Element.FromUniformBytes ⟨⟨0, 1, 1, 0⟩⟩ (List.replicate 64 (0 : ℕ))).1 :=
    isFromUniform_of_len ⟨⟨0, 1, 1, 0⟩⟩ (List.replicate 64 (0 : ℕ)) (by simp)
  exact ⟨hiu, C7_equal_equivalence _ _ _ hiu hiu hiu⟩
-- batch 13: the equality test characterizes the ristretto equivalence class
theorem pm_of_cross (x1 y1 x2 y2 : F)
    (h1 : -(x1 * x1) + y1 * y1 = 1 + dConst * (x1 * x1) * (y1 * y1))
    (h2 : -(x2 * x2) + y2 * y2 = 1 + dConst * (x2 * x2) * (y2 * y2))
    (hc : x1 * y2 = y1 * x2) :
    (x2 = x1 ∧ y2 = y1) ∨ (x2 = -x1 ∧ y2 = -y1) := by
  by_cases hx1 : x1 = 0
  · have hy1 : y1 ≠ 0 := by
      intro h0
      rw [hx1, h0] at h1
      exact one_ne_zero (show (1 : F) = 0 by linear_combination -h1)
    have hx2 : x2 = 0 := by
      rw [hx1, zero_mul] at hc
      rcases mul_eq_zero.mp hc.symm with h | h
      · exact absurd h hy1
      · exact h
    have hy1sq : y1 * y1 = 1 := by
      rw [hx1] at h1
      linear_combination h1
    have hy2sq : y2 * y2 = 1 := by
      rw [hx2] at h2
      linear_combination h2
    have hfac : (y2 - y1) * (y2 + y1) = 0 := by linear_combination hy2sq - hy1sq
    rcases mul_eq_zero.mp hfac with h | h
    · exact Or.inl ⟨by rw [hx1, hx2], by linear_combination h⟩
    · exact Or.inr ⟨by rw [hx1, hx2, neg_zero], by linear_combination h⟩
  · have hfac : (x2 * x2 - x1 * x1) * (1 - dConst * (y1 * y1) * (x2 * x2)) = 0 := by
      linear_combination (-(x2 * x2)) * h1 + (x1 * x1) * h2 +
        (-(1 - dConst * (x2 * x2)) * (x1 * y2 + y1 * x2)) * hc
    rcases mul_eq_zero.mp hfac with h | h
    · have hfac2 : (x2 - x1) * (x2 + x1) = 0 := by linear_combination h
      rcases mul_eq_zero.mp hfac2 with h3 | h3
      · have hx : x2 = x1 := by linear_combination h3
        left
        refine ⟨hx, ?_⟩
        rw [hx] at hc
        have h4 : x1 * (y2 - y1) = 0 := by linear_combination hc
        rcases mul_eq_zero.mp h4 with h5 | h5
        · exact absurd h5 hx1
        · linear_combination h5
      · have hx : x2 = -x1 := by linear_combination h3
        right
        refine ⟨hx, ?_⟩
        rw [hx] at hc
        have h4 : x1 * (y2 + y1) = 0 := by linear_combination hc
        rcases mul_eq_zero.mp h4 with h5 | h5
        · exact absurd h5 hx1
        · linear_combination h5
    · -- 1 = d·(y1·x2)², so d would be a square
      exfalso
      have hyx : y1 * x2 ≠ 0 := by
        intro h0
        have h5 : dConst * (y1 * y1) * (x2 * x2) = 0 := by
          have h6 : dConst * ((y1 * x2) * (y1 * x2)) = 0 := by rw [h0]; ring
          linear_combination h6
        rw [h5] at h
        exact one_ne_zero (by linear_combination h)
      refine not_sq_of_chi_neg_one dConst chi_dConst (y1 * x2)⁻¹ ?_
      field_simp
      linear_combination h

theorem swap_onCurve (x y : F)
    (h : -(x * x) + y * y = 1 + dConst * (x * x) * (y * y)) :
    -((y * sqrtM1) * (y * sqrtM1)) + (x * sqrtM1) * (x * sqrtM1) =
      1 + dConst * ((y * sqrtM1) * (y * sqrtM1)) * ((x * sqrtM1) * (x * sqrtM1)) := by
  linear_combination h + (x * x - y * y + 2 * dConst * (x * x) * (y * y) -
    dConst * (x * x) * (y * y) * (sqrtM1 * sqrtM1 + 1)) * sqrtM1_mul_self
-- batch 14: C2, the equality test decides the equivalence class
theorem sameClass_iff (P Q : ExtendedGroupElement) :
    sameClass P Q ↔
      ((affX Q = affX P ∧ affY Q = affY P) ∨
       (affX Q = -affX P ∧ affY Q = -affY P) ∨
       (affX Q = affY P * sqrtM1 ∧ affY Q = affX P * sqrtM1) ∨
       (affX Q = -(affY P * sqrtM1) ∧ affY Q = -(affX P * sqrtM1))) := by
  constructor
  · rintro ⟨tt, htt, heq⟩
    have hmem : tt = ((0 : F), (1 : F)) ∨ tt = (0, -1) ∨ tt = (sqrtM1, 0) ∨
        tt = (-sqrtM1, 0) := by
      simpa [torsion4] using htt
    have hx := congrArg Prod.fst heq
    have hy := congrArg Prod.snd heq
    rcases hmem with rfl | rfl | rfl | rfl
    · left
      simp only [affineAdd] at hx hy
      refine ⟨?_, ?_⟩
      · rw [← hx]; simp
      · rw [← hy]; simp
    · right; left
      simp only [affineAdd] at hx hy
      refine ⟨?_, ?_⟩
      · rw [← hx]; simp
      · rw [← hy]; simp
    · right; right; left
      simp only [affineAdd] at hx hy
      refine ⟨?_, ?_⟩
      · rw [← hx]; simp
      · rw [← hy]; simp
    · right; right; right
      simp only [affineAdd] at hx hy
      refine ⟨?_, ?_⟩
      · rw [← hx]; simp
      · rw [← hy]; simp
  · rintro (⟨hx, hy⟩ | ⟨hx, hy⟩ | ⟨hx, hy⟩ | ⟨hx, hy⟩)
    · refine ⟨(0, 1), by simp [torsion4], ?_⟩
      simp only [affineAdd]
      simp [Prod.ext_iff, hx, hy]
    · refine ⟨(0, -1), by simp [torsion4], ?_⟩
      simp only [affineAdd]
      simp [Prod.ext_iff, hx, hy]
    · refine ⟨(sqrtM1, 0), by simp [torsion4], ?_⟩
      simp only [affineAdd]
      simp [Prod.ext_iff, hx, hy]
    · refine ⟨(-sqrtM1, 0), by simp [torsion4], ?_⟩
      simp only [affineAdd]
      simp [Prod.ext_iff, hx, hy]

theorem equal_iff_sameClass (e1 e2 : Element) (h1 : onCurve e1.r) (h2 : onCurve e2.r) :
    e1.Equal e2 = 1 ↔ sameClass e1.r e2.r := by
  have hZ1 := h1.1
  have hZ2 := h2.1
  have hc1 := onCurve_affine_mul e1.r h1
  have hc2 := onCurve_affine_mul e2.r h2
  rw [equal_one_iff, sameClass_iff]
  constructor
  · rintro (hcross | hcross)
    · have haff : affX e1.r * affY e2.r = affY e1.r * affX e2.r := by
        rw [affX_spec e1.r hZ1, affY_spec e1.r hZ1, affX_spec e2.r hZ2,
          affY_spec e2.r hZ2] at hcross
        have h3 : (e1.r.Z * e2.r.Z) *
            (affX e1.r * affY e2.r - affY e1.r * affX e2.r) = 0 := by
          linear_combination hcross
        rcases mul_eq_zero.mp h3 with h4 | h4
        · exact absurd h4 (mul_ne_zero hZ1 hZ2)
        · linear_combination h4
      rcases pm_of_cross _ _ _ _ hc1 hc2 haff with ⟨ha, hb⟩ | ⟨ha, hb⟩
      · exact Or.inl ⟨ha, hb⟩
      · exact Or.inr (Or.inl ⟨ha, hb⟩)
    · have haff : affY e1.r * affY e2.r = affX e1.r * affX e2.r := by
        rw [affX_spec e1.r hZ1, affY_spec e1.r hZ1, affX_spec e2.r hZ2,
          affY_spec e2.r hZ2] at hcross
        have h3 : (e1.r.Z * e2.r.Z) *
            (affY e1.r * affY e2.r - affX e1.r * affX e2.r) = 0 := by
          linear_combination hcross
        rcases mul_eq_zero.mp h3 with h4 | h4
        · exact absurd h4 (mul_ne_zero hZ1 hZ2)
        · linear_combination h4
      have hsw := swap_onCurve (affX e1.r) (affY e1.r) hc1
      have hcross' : (affY e1.r * sqrtM1) * affY e2.r =
          (affX e1.r * sqrtM1) * affX e2.r := by
        linear_combination sqrtM1 * haff
      rcases pm_of_cross (affY e1.r * sqrtM1) (affX e1.r * sqrtM1) _ _ hsw hc2 hcross'
        with ⟨ha, hb⟩ | ⟨ha, hb⟩
      · exact Or.inr (Or.inr (Or.inl ⟨ha, hb⟩))
      · exact Or.inr (Or.inr (Or.inr ⟨ha, hb⟩))
  · rintro (⟨hx, hy⟩ | ⟨hx, hy⟩ | ⟨hx, hy⟩ | ⟨hx, hy⟩)
    · left
      rw [affX_spec e1.r hZ1, affY_spec e1.r hZ1, affX_spec e2.r hZ2,
        affY_spec e2.r hZ2, hx, hy]
      ring
    · left
      rw [affX_spec e1.r hZ1, affY_spec e1.r hZ1, affX_spec e2.r hZ2,
        affY_spec e2.r hZ2, hx, hy]
      ring
    · right
      rw [affX_spec e1.r hZ1, affY_spec e1.r hZ1, affX_spec e2.r hZ2,
        affY_spec e2.r hZ2, hx, hy]
      ring
    · right
      rw [affX_spec e1.r hZ1, affY_spec e1.r hZ1, affX_spec e2.r hZ2,
        affY_spec e2.r hZ2, hx, hy]
      ring

/-- C2: for valid curve representatives, Element.Equal returns 1 iff the two
extended points denote the same ristretto equivalence class (the cofactor-4
orbit of the affine point), 0 otherwise, and the result is exactly the
bitwise OR of the two constant-time field-equality tests X1·Y2 == Y1·X2 and
Y1·Y2 == X1·X2. -/
theorem C2_equal_spec (e1 e2 : Element) (h1 : onCurve e1.r) (h2 : onCurve e2.r) :
    (e1.Equal e2 = 1 ↔ sameClass e1.r e2.r) ∧
    (e1.Equal e2 = 0 ∨ e1.Equal e2 = 1) ∧
    e1.Equal e2 = (FeEqual (e1.r.X * e2.r.Y) (e1.r.Y * e2.r.X) |||
      FeEqual (e1.r.Y * e2.r.Y) (e1.r.X * e2.r.X)) := by
  refine ⟨equal_iff_sameClass e1 e2 h1 h2, ?_, rfl⟩
  simp only [Element.Equal]
  rcases FeEqual_zero_or_one (e1.r.X * e2.r.Y) (e1.r.Y * e2.r.X) with h | h <;>
    rcases FeEqual_zero_or_one (e1.r.Y * e2.r.Y) (e1.r.X * e2.r.X) with h2' | h2' <;>
      rw [h, h2'] <;> simp

/-- Witness for C2 at the neutral representative (0 : 1 : 1 : 0). -/
theorem C2_equal_spec_witness :
    onCurve (Element.mk ⟨0, 1, 1, 0⟩).r ∧
    (((Element.mk ⟨0, 1, 1, 0⟩).Equal (Element.mk ⟨0, 1, 1, 0⟩) = 1 ↔
        sameClass (Element.mk ⟨0, 1, 1, 0⟩).r (Element.mk ⟨0, 1, 1, 0⟩).r) ∧
      ((Element.mk ⟨0, 1, 1, 0⟩).Equal (Element.mk ⟨0, 1, 1, 0⟩) = 0 ∨
        (Element.mk ⟨0, 1, 1, 0⟩).Equal (Element.mk ⟨0, 1, 1, 0⟩) = 1) ∧
      (Element.mk ⟨0, 1, 1, 0⟩).Equal (Element.mk ⟨0, 1, 1, 0⟩) =
        (FeEqual ((Element.mk ⟨0, 1, 1, 0⟩).r.X * (Element.mk ⟨0, 1, 1, 0⟩).r.Y)
            ((Element.mk ⟨0, 1, 1, 0⟩).r.Y * (Element.mk ⟨0, 1, 1, 0⟩).r.X) |||
          FeEqual ((Element.mk ⟨0, 1, 1, 0⟩).r.Y * (Element.mk ⟨0, 1, 1, 0⟩).r.Y)
            ((Element.mk ⟨0, 1, 1, 0⟩).r.X * (Element.mk ⟨0, 1, 1, 0⟩).r.X))) := by
  have hoc : onCurve (⟨0, 1, 1, 0⟩ : ExtendedGroupElement) := by
    refine ⟨one_ne_zero, ?_⟩
    simp [affX, affY]
  exact ⟨hoc, C2_equal_spec (Element.mk ⟨0, 1, 1, 0⟩) (Element.mk ⟨0, 1, 1, 0⟩) hoc hoc⟩
